import Mathlib

/-!
# Key-path resolution and typed accessors of the configuration store

A shallow embedding of `config_get.go`: the existence check `Exists`, the path
resolver `GetValue`, the scalar accessors built on `getString`, the slice and
map accessors with their caches, the environment interpolation
`parseEnvValue`, the structure binding `Structure`, and the key normaliser
`formatKey`, together with the parts of the Go standard library they call
(`strings.TrimSpace`, `strings.Trim`, `strings.Split`, `strings.ToLower`,
`strconv.Atoi`, `fmt.Sprintf("%v", _)`, the matching of `envRegex` and
`strings.NewReplacer`).

Conventions of the embedding:

* a Go `string` is a Lean `String`, read as the list of its code points
  (strings that are not valid UTF-8 are outside the model);
* a Go `int` is a Lean `Int` on a 64-bit platform, with the range checks of
  `strconv` written out explicitly;
* a method with receiver `c *Config` that writes to the store returns the
  updated store next to its results;
* a run-time panic of the Go code is the `error` case of `Except Panic _`;
* the reader/writer lock is not modelled.
-/

/-- A Go `string`. -/
abbrev GoString := String

/-- A Go `int` (64 bits wide). -/
abbrev GoInt := Int

/-- The largest Go `int`, `1<<63 - 1`. -/
def maxInt : Int := 2 ^ 63 - 1

/-- The smallest Go `int`, `-1<<63`. -/
def minInt : Int := -(2 ^ 63)

/-! ## Package `strings` -/

namespace strings

/-- The predicate `unicode.IsSpace`: the code points Go treats as white space. -/
def isSpace (c : Char) : Bool :=
  let n := c.toNat
  (9 ≤ n && n ≤ 13) || n == 32 || n == 0x85 || n == 0xA0 || n == 0x1680 ||
    (0x2000 ≤ n && n ≤ 0x200A) || n == 0x2028 || n == 0x2029 || n == 0x202F ||
    n == 0x205F || n == 0x3000

/-- Removes the longest run of characters satisfying `p` from both ends. -/
def trimFunc (p : Char → Bool) (l : List Char) : List Char :=
  ((l.dropWhile p).reverse.dropWhile p).reverse

/-- The function `strings.TrimSpace`: strips leading and trailing white space. -/
def TrimSpace (s : GoString) : GoString :=
  ⟨trimFunc isSpace s.data⟩

/-- The function `strings.Trim`: strips leading and trailing characters that
occur in `cutset`. -/
def Trim (s : GoString) (cutset : GoString) : GoString :=
  ⟨trimFunc (fun c => cutset.data.contains c) s.data⟩

/-- Whether `sub` occurs in `l` at some position. -/
def containsAt (sub : List Char) : List Char → Bool
  | [] => sub.isEmpty
  | c :: cs => sub.isPrefixOf (c :: cs) || containsAt sub cs

/-- The function `strings.Contains`. -/
def Contains (s : GoString) (substr : GoString) : Bool :=
  containsAt substr.data s.data

/-- Splits a character list at every occurrence of `sep`. -/
def splitChars (sep : Char) : List Char → List (List Char)
  | [] => [[]]
  | c :: cs =>
    if c = sep then [] :: splitChars sep cs
    else
      match splitChars sep cs with
      | [] => [[c]]
      | p :: ps => (c :: p) :: ps

/-- The function `strings.Split` for a one-character separator, as in
`strings.Split(key, ".")`. -/
def Split (s : GoString) (sep : Char) : List GoString :=
  (splitChars sep s.data).map String.mk

end strings

/-! ## Package `strconv` -/

namespace strconv

/-- The two sentinel errors a `*strconv.NumError` can wrap. -/
inductive NumErr where
  | ErrSyntax
  | ErrRange
  deriving DecidableEq, Repr

/-- The value of a decimal digit, `none` for any other character. -/
def digitVal (c : Char) : Option Nat :=
  if c.isDigit then some (c.toNat - 48) else none

/-- The largest `uint64`. -/
def maxUint64 : Nat := 2 ^ 64 - 1

/-- The digit loop of `strconv.ParseUint(s, 10, 64)`: `n` is the value read so
far. It stops at the first character that is not a digit (syntax error, value
0) and at the first digit that would overflow 64 bits (range error, value
`maxUint64`), whichever comes first. -/
def parseUintLoop : List Char → Nat → Nat × Option NumErr
  | [], n => (n, none)
  | c :: cs, n =>
    match digitVal c with
    | none => (0, some .ErrSyntax)
    | some d =>
      if n ≥ maxUint64 / 10 + 1 then (maxUint64, some .ErrRange)
      else
        let n10 := n * 10
        let n1 := (n10 + d) % 2 ^ 64
        if n1 < n10 then (maxUint64, some .ErrRange)
        else parseUintLoop cs n1

/-- The function `strconv.ParseUint(s, 10, 64)`. -/
def ParseUint (s : List Char) : Nat × Option NumErr :=
  match s with
  | [] => (0, some .ErrSyntax)
  | _ :: _ => parseUintLoop s 0

/-- The function `strconv.ParseInt(s, 10, 0)` with a 64-bit `int`: an optional
sign, then `ParseUint`; a syntax error gives 0, a magnitude out of range gives
the nearest bound together with a range error. -/
def ParseInt (s : GoString) : GoInt × Option NumErr :=
  match s.data with
  | [] => (0, some .ErrSyntax)
  | c :: rest =>
    let neg : Bool := c == '-'
    let body := if c == '+' || c == '-' then rest else c :: rest
    match ParseUint body with
    | (_, some .ErrSyntax) => (0, some .ErrSyntax)
    | (un, _) =>
      if !neg && un ≥ 2 ^ 63 then (2 ^ 63 - 1, some .ErrRange)
      else if neg && un > 2 ^ 63 then (-(2 ^ 63), some .ErrRange)
      else (if neg then -(un : Int) else (un : Int), none)

/-- The function `strconv.Atoi`: "equivalent to `ParseInt(s, 10, 0)`, converted
to type int". -/
def Atoi (s : GoString) : GoInt × Option NumErr :=
  ParseInt s

/-- The decimal digit character of `d < 10`. -/
def digitChar (d : Nat) : Char :=
  Char.ofNat (48 + d)

/-- Writes the decimal digits of `u` in front of `acc`, least significant digit
first, as the formatting loop of `strconv`/`fmt` does; `fuel` bounds the
number of digits. -/
def fmtDigits : Nat → Nat → List Char → List Char
  | 0, _, acc => acc
  | fuel + 1, u, acc =>
    if u < 10 then digitChar u :: acc
    else fmtDigits fuel (u / 10) (digitChar (u % 10) :: acc)

/-- The function `strconv.FormatUint(u, 10)`. -/
def formatNat (u : Nat) : List Char :=
  fmtDigits (u + 1) u []

/-- The function `strconv.Itoa` (also what `fmt` prints for an `int` under
`%v`): a minus sign for negative numbers, then the decimal digits. -/
def Itoa (n : GoInt) : GoString :=
  if n < 0 then ⟨'-' :: formatNat n.natAbs⟩ else ⟨formatNat n.natAbs⟩

end strconv

/-! ## The value model -/

/-- A dynamically typed Go value (`interface{}`) as it can sit in the store:
the scalars, the three map shapes and the three slice shapes the resolver
switches on, and `map[string]int`. A `float64` is identified by the text `fmt`
prints for it. -/
inductive Value where
  /-- The nil interface value. -/
  | nil
  /-- A `bool`. -/
  | bool (b : Bool)
  /-- An `int`. -/
  | int (n : GoInt)
  /-- A `float64`, given by its `%v` text (`123`, `1.5`, ...). -/
  | float (text : GoString)
  /-- A `string`. -/
  | str (s : GoString)
  /-- A `map[string]string`. -/
  | mapSS (m : List (GoString × GoString))
  /-- A `map[string]int`. -/
  | mapSInt (m : List (GoString × GoInt))
  /-- A `map[string]interface{}`. -/
  | mapSI (m : List (GoString × Value))
  /-- A `map[interface{}]interface{}`. -/
  | mapII (m : List (Value × Value))
  /-- A `[]int`. -/
  | intSlice (xs : List GoInt)
  /-- A `[]string`. -/
  | strSlice (xs : List GoString)
  /-- A `[]interface{}`. -/
  | anySlice (xs : List Value)

instance : Inhabited Value := ⟨Value.nil⟩

/-- Whether an `interface{}` map key equals the string `k`: it must hold a
`string` with the same content. -/
def Value.isStr (k : GoString) : Value → Bool
  | .str s => s == k
  | _ => false

/-- The lookup `m[k]` in a `map[interface{}]interface{}` for a string `k`. -/
def lookupAny (k : GoString) : List (Value × Value) → Option Value
  | [] => none
  | (key, v) :: rest => if key.isStr k then some v else lookupAny k rest

/-- The element `xs[i]` of a slice, `none` where Go panics with "index out of
range" (a negative index, or one not below the length). -/
def sliceAt {α : Type} (xs : List α) (i : GoInt) : Option α :=
  if i < 0 then none else xs.get? i.toNat

/-- The errors the accessors record. -/
inductive GoError where
  /-- The package variable `errInvalidKey`. -/
  | errInvalidKey
  /-- A `*strconv.NumError` for the input `num`. -/
  | numError (num : GoString) (err : strconv.NumErr)
  /-- An error made by `fmt.Errorf`, given by its message. -/
  | errorf (msg : GoString)
  deriving DecidableEq, Repr

/-- A run-time panic of the Go program. -/
inductive Panic where
  /-- The panic "index out of range [index] with length len". -/
  | indexOutOfRange (index : Int) (len : Nat)
  deriving DecidableEq, Repr

/-- The fields of `Options` that the read path consults. -/
structure Options where
  /-- Expand `${NAME}` tokens in string values. -/
  ParseEnv : Bool := false
  /-- Skip the read lock. -/
  Readonly : Bool := false
  /-- Memoise string, string-slice and string-map reads. -/
  EnableCache : Bool := false

/-- Modelled from the spec: the declaration of the `Config` struct is not part
of the sources at hand; these are the fields `config_get.go` reads and writes.
`data` is the root mapping, the three caches are keyed by the key string the
caller passed, and `errors` is the accumulated error list, where a Go `nil`
error is `none`. -/
structure Config where
  /-- The options of the store. -/
  opts : Options := {}
  /-- The root mapping, a `map[string]interface{}`. -/
  data : List (GoString × Value) := []
  /-- The cache of `getString`. -/
  strCache : List (GoString × GoString) := []
  /-- The cache of `Strings`. -/
  sArrCache : List (GoString × List GoString) := []
  /-- The cache of `StringMap`. -/
  sMapCache : List (GoString × List (GoString × GoString)) := []
  /-- The accumulated error list. -/
  errors : List (Option GoError) := []

/-- The assignment `m[k] = v` on a map kept as an association list. -/
def mapSet {β : Type} (m : List (GoString × β)) (k : GoString) (v : β) : List (GoString × β) :=
  (k, v) :: m.filter (fun e => e.1 != k)

namespace Config

/-- Modelled from the spec: `addError` is not part of the sources at hand; it
appends the error it is given to the store's accumulated error list. -/
def addError (c : Config) (err : Option GoError) : Config :=
  { c with errors := c.errors ++ [err] }

/-- Modelled from the spec: `addErrorf` is not part of the sources at hand; it
records the error `fmt.Errorf` builds, here given by its message. -/
def addErrorf (c : Config) (msg : GoString) : Config :=
  c.addError (some (.errorf msg))

end Config

/-- The function `formatKey`: white space is trimmed first, then dots. -/
def formatKey (key : GoString) : GoString :=
  strings.Trim (strings.TrimSpace key) "."

/-- The test `len(findByPath) > 0 && !findByPath[0]` on the variadic
argument. -/
def pathDisabled (findByPath : List Bool) : Bool :=
  match findByPath with
  | [] => false
  | b :: _ => !b

namespace Config

/-- One iteration of the loop of `Exists`: the next `item`, or `none` when the
loop returns `false`. The three slice cases check the index and leave `item`
as it is. -/
def existsStep (item : Value) (k : GoString) : Option Value :=
  match item with
  | .mapSS m => (m.lookup k).map Value.str
  | .mapSI m => m.lookup k
  | .mapII m => lookupAny k m
  | .intSlice xs =>
    let r := strconv.Atoi k
    if r.2.isSome || (xs.length : Int) < r.1 then none else some item
  | .strSlice xs =>
    let r := strconv.Atoi k
    if r.2.isSome || (xs.length : Int) < r.1 then none else some item
  | .anySlice xs =>
    let r := strconv.Atoi k
    if r.2.isSome || (xs.length : Int) < r.1 then none else some item
  | _ => none

/-- The loop `for _, k := range keys[1:]` of `Exists`. -/
def existsLoop : Value → List GoString → Bool
  | _, [] => true
  | item, k :: ks =>
    match existsStep item k with
    | none => false
    | some next => existsLoop next ks

/-- The method `Config.Exists`. -/
def Exists (c : Config) (key : GoString) (findByPath : List Bool) : Bool :=
  let key := formatKey key
  if key == "" then false
  else if (c.data.lookup key).isSome then true
  else if pathDisabled findByPath then false
  else if !strings.Contains key "." then false
  else
    match strings.Split key '.' with
    | [] => false
    | topK :: rest =>
      match c.data.lookup topK with
      | none => false
      | some item => existsLoop item rest

/-- What one iteration of the loop of `GetValue` does. -/
inductive Step where
  /-- The iteration assigned `item` and the loop goes on. -/
  | next (item : Value)
  /-- A map has no entry for the segment: `return` with `ok = false`. -/
  | miss
  /-- A slice index was refused: `ok = false`, `c.addError(err)`, `return`. -/
  | fail (err : Option GoError)
  /-- The `default` case: `ok = false`, `c.addErrorf(...)`, `return`. -/
  | failf (msg : GoString)
  /-- The indexing `typeData[i]` panicked. -/
  | panic (p : Panic)

/-- The slice cases of `GetValue`: parse the segment, refuse it when it does not
parse or when `len(typeData) < i`, then index. -/
def sliceStep {α : Type} (wrap : α → Value) (xs : List α) (k : GoString) : Step :=
  let r := strconv.Atoi k
  if r.2.isSome || (xs.length : Int) < r.1 then
    .fail (r.2.map (GoError.numError k))
  else
    match sliceAt xs r.1 with
    | some x => .next (wrap x)
    | none => .panic (.indexOutOfRange r.1 xs.length)

/-- One iteration of the loop of `GetValue`, for the segment `k` of `key`. -/
def getStep (key : GoString) (item : Value) (k : GoString) : Step :=
  match item with
  | .mapSS m =>
    match m.lookup k with
    | some s => .next (.str s)
    | none => .miss
  | .mapSI m =>
    match m.lookup k with
    | some v => .next v
    | none => .miss
  | .mapII m =>
    match lookupAny k m with
    | some v => .next v
    | none => .miss
  | .intSlice xs => sliceStep Value.int xs k
  | .strSlice xs => sliceStep Value.str xs k
  | .anySlice xs => sliceStep id xs k
  | _ => .failf ("cannot get value of the key '" ++ key ++ "'")

/-- The loop `for _, k := range keys[1:]` of `GetValue`, followed by
`return item, true`. -/
def getLoop (c : Config) (key : GoString) :
    Value → List GoString → Except Panic ((Value × Bool) × Config)
  | item, [] => .ok ((item, true), c)
  | item, k :: ks =>
    match getStep key item k with
    | .next item1 => getLoop c key item1 ks
    | .miss => .ok ((Value.nil, false), c)
    | .fail err => .ok ((Value.nil, false), c.addError err)
    | .failf msg => .ok ((Value.nil, false), c.addErrorf msg)
    | .panic p => .error p

/-- The method `Config.GetValue`: the value, the found flag and the store with
the errors recorded on the way, or the panic the call ends in. -/
def GetValue (c : Config) (key : GoString) (findByPath : List Bool) :
    Except Panic ((Value × Bool) × Config) :=
  let key := formatKey key
  if key == "" then .ok ((Value.nil, false), c.addError (some .errInvalidKey))
  else
    match c.data.lookup key with
    | some value => .ok ((value, true), c)
    | none =>
      if pathDisabled findByPath then .ok ((Value.nil, false), c)
      else if !strings.Contains key "." then .ok ((Value.nil, false), c)
      else
        match strings.Split key '.' with
        | [] => .error (.indexOutOfRange 0 0)
        | topK :: rest =>
          match c.data.lookup topK with
          | none => .ok ((Value.nil, false), c)
          | some item => getLoop c key item rest

/-- The found flag of a `GetValue` call that returned. -/
def foundFlag (r : Except Panic ((Value × Bool) × Config)) : Option Bool :=
  match r with
  | .ok ((_, ok), _) => some ok
  | .error _ => none

/-- The value of a `GetValue` call that returned. -/
def resultValue (r : Except Panic ((Value × Bool) × Config)) : Option Value :=
  match r with
  | .ok ((v, _), _) => some v
  | .error _ => none

/-- The method `Config.Get`: the value of `GetValue`, the flag dropped. -/
def Get (c : Config) (key : GoString) (findByPath : List Bool) : Except Panic (Value × Config) :=
  match c.GetValue key findByPath with
  | .ok ((val, _), c1) => .ok (val, c1)
  | .error p => .error p

end Config

/-! ## Formatting, environment interpolation and the scalar accessors -/

/-- A Go `bool`. -/
abbrev GoBool := Bool

/-- A Go `float64`, identified like `Value.float` by the text `fmt` prints for
it under `%v`. -/
structure GoFloat where
  /-- The `%v` text of the number. -/
  text : GoString
  deriving DecidableEq, Repr

/-- The zero value `0.0` of `float64`, printed `0`. -/
def GoFloat.zero : GoFloat := ⟨"0"⟩

/-- What the code takes from its surroundings: the process environment read by
`os.Getenv`, the text `fmt` prints under `%v` for the composite shapes whose
formatting is not spelled out here (maps, which `fmt` prints in sorted key
order, and `[]interface{}`), the lower-case mapping of the code points above
ASCII, and the float parser of `strconv`. -/
structure Runtime where
  /-- The function `os.Getenv`; an unset variable reads as the empty string. -/
  Getenv : GoString → GoString
  /-- The `%v` text of a map or of a `[]interface{}`. -/
  sprintComposite : Value → GoString
  /-- The function `unicode.ToLower` on the code points above ASCII. -/
  unicodeLower : Char → Char
  /-- The function `strconv.ParseFloat(s, 64)`: the value and the error. -/
  ParseFloat : GoString → GoFloat × Option strconv.NumErr

/-- The call `fmt.Sprintf("%v", val)`. -/
def Sprint (rt : Runtime) (val : Value) : GoString :=
  match val with
  | .nil => "<nil>"
  | .bool b => if b then "true" else "false"
  | .int n => strconv.Itoa n
  | .float text => text
  | .str s => s
  | .intSlice xs => "[" ++ " ".intercalate (xs.map strconv.Itoa) ++ "]"
  | .strSlice xs => "[" ++ " ".intercalate xs ++ "]"
  | v => rt.sprintComposite v

/-- The character class `[\w-| ]` of `envRegex`: ASCII letters, digits and
underscore, the dash, the pipe and the space. -/
def isTokenChar (c : Char) : Bool :=
  c.isAlphanum || c == '_' || c == '-' || c == '|' || c == ' '

/-- A match of `envRegex` at the start of `l`: the text `$`, an opening brace,
one or more class characters and a closing brace. The class does not contain
the closing brace, so the run of class characters is the longest one. -/
def matchToken (l : List Char) : Option (List Char) :=
  match l with
  | '$' :: '\x7b' :: rest =>
    match rest.takeWhile isTokenChar, rest.dropWhile isTokenChar with
    | b :: body, '\x7d' :: _ => some ('$' :: '\x7b' :: (b :: body) ++ ['\x7d'])
    | _, _ => none
  | _ => none

/-- The call `envRegex.FindAllString(val, -1)`: the successive leftmost
matches, none overlapping another; `skip` counts the characters of the last
match still to pass over. -/
def findAllTokens : List Char → Nat → List (List Char)
  | [], _ => []
  | _ :: cs, skip + 1 => findAllTokens cs skip
  | c :: cs, 0 =>
    match matchToken (c :: cs) with
    | some tok => tok :: findAllTokens cs (tok.length - 1)
    | none => findAllTokens cs 0

/-- The call `strings.SplitN(s, "|", 2)`: at most two parts, cut at the first
pipe. -/
def splitPipe (s : List Char) : List (List Char) :=
  if s.contains '|' then
    [s.takeWhile (fun c => c != '|'), (s.dropWhile (fun c => c != '|')).drop 1]
  else [s]

/-- The body of the loop of `parseEnvValue` for one matched token `fVar`: the
pair (old, new) appended to `oldNew`. -/
def envPair (rt : Runtime) (fVar : List Char) : List Char × List Char :=
  let ss := splitPipe ((fVar.drop 2).dropLast)
  let nameDef : GoString × GoString :=
    match ss with
    | [a, b] => (strings.TrimSpace ⟨a⟩, strings.TrimSpace ⟨b⟩)
    | a :: _ => (⟨a⟩, ⟨fVar⟩)
    | [] => ("", ⟨fVar⟩)
  let envVal := rt.Getenv nameDef.1
  (fVar, if envVal == "" then nameDef.2.data else envVal.data)

/-- The call `strings.NewReplacer(oldNew...).Replace(val)` for non-empty old
strings: at each position the first pair, in argument order, whose old string
starts there is substituted and the scan resumes after it. -/
def replaceAll (pairs : List (List Char × List Char)) : List Char → Nat → List Char
  | [], _ => []
  | _ :: cs, skip + 1 => replaceAll pairs cs skip
  | c :: cs, 0 =>
    match pairs.find? (fun p => p.1.isPrefixOf (c :: cs)) with
    | some p => p.2 ++ replaceAll pairs cs (p.1.length - 1)
    | none => c :: replaceAll pairs cs 0

namespace Config

/-- The method `Config.parseEnvValue`. -/
def parseEnvValue (_c : Config) (rt : Runtime) (val : GoString) : GoString :=
  if !strings.Contains val "$\x7b" then val
  else
    let vars := findAllTokens val.data 0
    if vars.isEmpty then val
    else ⟨replaceAll (vars.map (envPair rt)) val.data 0⟩

/-- The `switch val.(type)` of `getString`: every value is formatted with
`%v`, and a string is passed through `parseEnvValue` when `ParseEnv` is set. -/
def stringForm (c : Config) (rt : Runtime) (val : Value) : GoString :=
  match val with
  | .str s => if c.opts.ParseEnv then c.parseEnvValue rt (Sprint rt (.str s)) else Sprint rt (.str s)
  | v => Sprint rt v

/-- The cache probe at the head of `getString`: consulted only when the cache
is enabled and not empty. -/
def strCacheHit (c : Config) (key : GoString) : Option GoString :=
  if c.opts.EnableCache && decide (c.strCache.length > 0) then c.strCache.lookup key else none

/-- The "add cache" block at the end of `getString`: with the cache enabled,
`c.strCache[key] = value`. -/
def addStrCache (c : Config) (key : GoString) (value : GoString) : Config :=
  if c.opts.EnableCache then { c with strCache := mapSet c.strCache key value } else c

/-- The method `Config.getString`. -/
def getString (c : Config) (rt : Runtime) (key : GoString) :
    Except Panic ((GoString × Bool) × Config) :=
  match c.strCacheHit key with
  | some value => .ok ((value, true), c)
  | none =>
    match c.GetValue key [] with
    | .error p => .error p
    | .ok ((val, ok), c1) =>
      if !ok then .ok (("", false), c1)
      else .ok ((c1.stringForm rt val, true), c1.addStrCache key (c1.stringForm rt val))

/-- The method `Config.Int64`: `strconv.ParseInt(rawVal, 10, 0)` on the string
form; the parsed value is returned also when the parse fails. -/
def Int64 (c : Config) (rt : Runtime) (key : GoString) (defVal : List GoInt) :
    Except Panic (GoInt × Config) :=
  match c.getString rt key with
  | .error p => .error p
  | .ok ((rawVal, exist), c1) =>
    if !exist then .ok (defVal.headD 0, c1)
    else
      match strconv.ParseInt rawVal with
      | (value, some err) => .ok (value, c1.addError (some (.numError rawVal err)))
      | (value, none) => .ok (value, c1)

/-- The method `Config.Int`: `strconv.Atoi` on the string form; the parsed
value is returned also when the parse fails. -/
def Int (c : Config) (rt : Runtime) (key : GoString) (defVal : List GoInt) :
    Except Panic (GoInt × Config) :=
  match c.getString rt key with
  | .error p => .error p
  | .ok ((rawVal, exist), c1) =>
    if !exist then .ok (defVal.headD 0, c1)
    else
      match strconv.Atoi rawVal with
      | (value, some err) => .ok (value, c1.addError (some (.numError rawVal err)))
      | (value, none) => .ok (value, c1)

/-- The method `Config.String`. -/
def String (c : Config) (rt : Runtime) (key : GoString) (defVal : List GoString) :
    Except Panic (GoString × Config) :=
  match c.getString rt key with
  | .error p => .error p
  | .ok ((value, ok), c1) =>
    if !ok && decide (defVal.length > 0) then .ok (defVal.headD "", c1)
    else .ok (value, c1)

end Config

/-! ## The boolean, float and composite accessors, and structure binding -/

namespace strings

/-- The function `strings.ToLower`: ASCII capitals are lowered in place, and a
code point above ASCII is mapped by `unicode.ToLower`, passed as `lower`. -/
def ToLower (lower : Char → Char) (s : GoString) : GoString :=
  ⟨s.data.map (fun ch => if ch.toNat < 128 then ch.toLower else lower ch)⟩

end strings

/-- The `switch lowerCase` of `Config.Bool`: the value of a recognised token,
`none` for the `default` case. -/
def boolToken (lowerCase : GoString) : Option GoBool :=
  if lowerCase == "" || lowerCase == "0" || lowerCase == "false" || lowerCase == "no" then
    some false
  else if lowerCase == "1" || lowerCase == "true" || lowerCase == "yes" then some true
  else none

/-- The loop of `Config.Ints` over a `[]interface{}`: `arr` is the result so
far. At the first element whose `%v` text does not parse the loop returns
with `arr` as it stands and the error to record. -/
def intsLoop (rt : Runtime) : List Value → List GoInt → List GoInt × Option GoError
  | [], arr => (arr, none)
  | v :: vs, arr =>
    match strconv.Atoi (Sprint rt v) with
    | (_, some e) => (arr, some (.numError (Sprint rt v) e))
    | (iv, none) => intsLoop rt vs (arr ++ [iv])

/-- The external collaborators of `Config.Structure`: the package variables
`JSONEncoder` and `JSONDecoder`. The encoder gives a blob or an error; the
decoder writes into the destination and gives an error or nil. -/
structure Codec (Blob Dest : Type) where
  /-- The call `JSONEncoder(data)`. -/
  JSONEncoder : Value → Except GoError Blob
  /-- The call `JSONDecoder(blob, v)`: the destination afterwards and the error. -/
  JSONDecoder : Blob → Dest → Dest × Option GoError

namespace Config

/-- The method `Config.Float`: `strconv.ParseFloat` on the string form. -/
def Float (c : Config) (rt : Runtime) (key : GoString) (defVal : List GoFloat) :
    Except Panic (GoFloat × Config) :=
  match c.getString rt key with
  | .error p => .error p
  | .ok ((str, ok), c1) =>
    if !ok then .ok (defVal.headD GoFloat.zero, c1)
    else
      match rt.ParseFloat str with
      | (value, some err) => .ok (value, c1.addError (some (.numError str err)))
      | (value, none) => .ok (value, c1)

/-- The method `Config.Ints`. A nil slice and an empty slice are both the
empty list. -/
def Ints (c : Config) (rt : Runtime) (key : GoString) : Except Panic (List GoInt × Config) :=
  match c.GetValue key [] with
  | .error p => .error p
  | .ok ((rawVal, ok), c1) =>
    if !ok then .ok ([], c1)
    else
      match rawVal with
      | .intSlice xs => .ok (xs, c1)
      | .anySlice xs =>
        match intsLoop rt xs [] with
        | (arr, some e) => .ok (arr, c1.addError (some e))
        | (arr, none) => .ok (arr, c1)
      | _ => .ok ([], c1.addErrorf ("value cannot be convert to []int, key is '" ++ key ++ "'"))

/-- The cache probe at the head of `Strings`. -/
def sArrCacheHit (c : Config) (key : GoString) : Option (List GoString) :=
  if c.opts.EnableCache && decide (c.sArrCache.length > 0) then c.sArrCache.lookup key else none

/-- The "add cache" block at the end of `Strings`. -/
def addSArrCache (c : Config) (key : GoString) (arr : List GoString) : Config :=
  if c.opts.EnableCache then { c with sArrCache := mapSet c.sArrCache key arr } else c

/-- The method `Config.Strings`. -/
def Strings (c : Config) (rt : Runtime) (key : GoString) :
    Except Panic (List GoString × Config) :=
  match c.sArrCacheHit key with
  | some arr => .ok (arr, c)
  | none =>
    match c.GetValue key [] with
    | .error p => .error p
    | .ok ((rawVal, ok), c1) =>
      if !ok then .ok ([], c1)
      else
        match rawVal with
        | .strSlice xs => .ok (xs, c1.addSArrCache key xs)
        | .anySlice xs => .ok (xs.map (Sprint rt), c1.addSArrCache key (xs.map (Sprint rt)))
        | _ =>
          .ok ([], c1.addErrorf
            ("value cannot be convert to []string, key is '" ++ key ++ "'"))

/-- The method `Config.Structure`: the returned error, the destination
afterwards and the store. Inside `if ok` the statement
`blob, err := JSONEncoder(data)` declares a new `err`; `return err` hands the
encoder's error out, while `err = JSONDecoder(blob, v)` assigns to that
inner variable and the final bare `return` yields the named result, still
nil. -/
def Structure {Blob Dest : Type} (c : Config) (codec : Codec Blob Dest) (key : GoString)
    (v : Dest) : Except Panic ((Option GoError × Dest) × Config) :=
  match (if key == "" then .ok ((Value.mapSI c.data, true), c) else c.GetValue key []) with
  | .error p => .error p
  | .ok ((data, ok), c1) =>
    if ok then
      match codec.JSONEncoder data with
      | .error err => .ok ((some err, v), c1)
      | .ok blob => .ok ((none, (codec.JSONDecoder blob v).1), c1)
    else .ok ((none, v), c1)

/-- The method `Config.Bool`. -/
def Bool (c : Config) (rt : Runtime) (key : GoString) (defVal : List GoBool) :
    Except Panic (GoBool × Config) :=
  match c.getString rt key with
  | .error p => .error p
  | .ok ((rawVal, ok), c1) =>
    if !ok then .ok (defVal.headD false, c1)
    else
      match boolToken (strings.ToLower rt.unicodeLower rawVal) with
      | some value => .ok (value, c1)
      | none =>
        .ok (false, c1.addErrorf ("the value '" ++ strings.ToLower rt.unicodeLower rawVal ++
          "' cannot be convert to bool"))

end Config

/-! ## The collaborator calls of structure binding -/

/-- A call `Config.Structure` makes to one of its collaborators. -/
inductive CodecCall (Blob : Type) where
  /-- The call `JSONEncoder(data)`. -/
  | encode (data : Value)
  /-- The call `JSONDecoder(blob, v)`. -/
  | decode (blob : Blob)

namespace Config

/-- The method `Config.Structure` once more, with the collaborator calls it
makes listed in order next to its result: none when `ok` is false, the
encoder alone when it fails, the encoder and then the decoder otherwise. -/
def StructureTrace {Blob Dest : Type} (c : Config) (codec : Codec Blob Dest)
    (key : GoString) (v : Dest) :
    Except Panic (((Option GoError × Dest) × Config) × List (CodecCall Blob)) :=
  match (if key == "" then .ok ((Value.mapSI c.data, true), c) else c.GetValue key []) with
  | .error p => .error p
  | .ok ((data, ok), c1) =>
    if ok then
      match codec.JSONEncoder data with
      | .error err => .ok (((some err, v), c1), [.encode data])
      | .ok blob =>
        .ok (((none, (codec.JSONDecoder blob v).1), c1), [.encode data, .decode blob])
    else .ok (((none, v), c1), [])

end Config

/-! ## Notions used in the statements, and example stores -/

/-- The entry `item[k]` of a mapping of one of the three shapes the resolver
knows (`map[string]string`, `map[string]interface{}`,
`map[interface{}]interface{}`), as an `interface{}`; `none` when the mapping
has no such key or `item` is not such a mapping. -/
def Value.mapEntry (item : Value) (k : GoString) : Option Value :=
  match item with
  | .mapSS m => (m.lookup k).map Value.str
  | .mapSI m => m.lookup k
  | .mapII m => lookupAny k m
  | _ => none

/-- Whether a value is a mapping of one of the three shapes. -/
def Value.isMapping : Value → Bool
  | .mapSS _ => true
  | .mapSI _ => true
  | .mapII _ => true
  | _ => false

/-- The element `item[i]` of a sequence of one of the three shapes (`[]int`,
`[]string`, `[]interface{}`), as an `interface{}`; `none` when `i` is out of
range or `item` is not such a sequence. -/
def Value.seqEntry (item : Value) (i : GoInt) : Option Value :=
  match item with
  | .intSlice xs => (sliceAt xs i).map Value.int
  | .strSlice xs => (sliceAt xs i).map Value.str
  | .anySlice xs => sliceAt xs i
  | _ => none

/-- The length of a sequence of one of the three shapes. -/
def Value.seqLen : Value → Option Nat
  | .intSlice xs => some xs.length
  | .strSlice xs => some xs.length
  | .anySlice xs => some xs.length
  | _ => none

/-- The store `{"a": [ {"k": 1} ]}`. -/
def nestedSeqStore : Config :=
  { data := [("a", .anySlice [.mapSI [("k", .int 1)]])] }

/-- The store of the test file, as decoded from JSON, with one more top-level
key whose name contains a dot. -/
def testStore : Config :=
  { data := [("age", .float "123"), ("debug", .bool true), ("name", .str "app"),
      ("map1", .mapSI [("key", .str "val"), ("key1", .str "val1"), ("key2", .str "val2")]),
      ("arr1", .anySlice [.str "val", .str "val1", .str "val2"]),
      ("map1.key2", .str "literal")] }

/-- The store built by `LoadData` in the test file. -/
def loadedStore : Config :=
  { data := [("newIArr", .intSlice [2, 3]), ("newSArr", .strSlice ["a", "b"]),
      ("yMap", .mapII [(.str "k0", .str "v0"), (.str "k1", .int 23)]),
      ("sMap", .mapSS [("k", "v")]),
      ("yArr", .anySlice [.int 23, .int 45, .str "val", .mapSI [("k4", .str "v4")]])] }

/-- A store whose root has the empty string as a key, as the JSON document
`{"": 1}` decodes to. -/
def emptyKeyStore : Config :=
  { data := [("", .float "1")] }

/-- A store whose root has a sequence under a key that contains a dot. -/
def dottedKeyStore : Config :=
  { data := [("a.b", .intSlice [1, 2])] }

/-- A runtime with the variable `FOO` set to `bar` and nothing else. -/
def fooRuntime : Runtime :=
  { Getenv := fun name => if name == "FOO" then "bar" else "",
    sprintComposite := fun _ => "",
    unicodeLower := fun ch => ch,
    ParseFloat := fun s =>
      if s == "1.5" then (⟨"1.5"⟩, none)
      else if s == "123" then (⟨"123"⟩, none)
      else (GoFloat.zero, some .ErrSyntax) }

/-- A store with the cache enabled whose string cache still holds the text
read for `"age"` before the root entry was changed to `123`. -/
def staleCacheStore : Config :=
  { opts := { EnableCache := true },
    data := [("age", .int 123), ("name", .str "app")],
    strCache := [("age", "7"), ("name", "8")] }

/-- A store with integers at the top level, in a map and in an integer
sequence, and with strings that are not integers. -/
def numberStore : Config :=
  { data := [("age", .int 123), ("iMap", .mapSI [("k2", .int (-34))]),
      ("iArr", .intSlice [12, 34, 36]), ("name", .str "app"), ("ratio", .str "1.5"),
      ("big", .str "99999999999999999999"), ("low", .str "-99999999999999999999")] }

/-- A store whose root has a sequence under a key that starts with a space. -/
def spacedKeyStore : Config :=
  { data := [(" a", .intSlice [1, 2])] }

/-- Whether `Strings` can coerce the value: a `[]string` or a `[]interface{}`. -/
def Value.isStringsShape : Value → Bool
  | .strSlice _ => true
  | .anySlice _ => true
  | _ => false

/-- A store with values of the boolean table: a `bool`, a number, and strings
in several spellings. -/
def boolStore : Config :=
  { data := [("debug", .bool true), ("age", .float "123"), ("on", .str "TRUE"),
      ("agree", .str "Yes"), ("off", .str "No"), ("mood", .str "maybe"), ("blank", .str "")] }

/-- A store with the cache enabled whose string cache holds `"no"` for
`"debug"` while the root holds `true`. -/
def staleBoolStore : Config :=
  { opts := { EnableCache := true },
    data := [("debug", .bool true)],
    strCache := [("debug", "no")] }

/-- A store with heterogeneous sequences: one whose second element is not a
number, and one whose elements all print as integers. -/
def mixedSeqStore : Config :=
  { data := [("h", .anySlice [.int 1, .str "x"]),
      ("g", .anySlice [.int 1, .str "22", .float "3"]),
      ("names", .strSlice ["a", "b"]), ("age", .int 7)] }

/-- A store with the cache enabled whose string-slice cache holds an old list
for `"names"`. -/
def staleArrStore : Config :=
  { opts := { EnableCache := true },
    data := [("names", .strSlice ["a", "b"])],
    sArrCache := [("names", ["old"])] }

/-- A store with the cache enabled and empty caches. -/
def cacheOnStore : Config :=
  { opts := { EnableCache := true },
    data := [("age", .int 1), ("name", .str "app"), ("names", .strSlice ["a", "b"]),
      ("m", .mapSS [("k", "v")])] }

/-- The root of `cacheOnStore` after `age` was changed from 1 to 2 and `name`
was removed. -/
def changedRoot : List (GoString × Value) :=
  [("age", .int 2), ("names", .strSlice ["c"]), ("m", .mapSS [("k", "w")])]

/-- A codec whose encoder succeeds and whose decoder fails: it leaves the
destination as it is and reports an error. -/
def failingDecoder : Codec GoString GoString :=
  { JSONEncoder := fun _ => .ok "blob",
    JSONDecoder := fun _ dest => (dest, some (.errorf "decode failed")) }

/-- A codec whose encoder fails. -/
def failingEncoder : Codec GoString GoString :=
  { JSONEncoder := fun _ => .error (.errorf "encode failed"),
    JSONDecoder := fun blob _ => (blob, none) }

/-- The store `cacheOnStore` after `String("name")`: the string cache holds
`"app"` for `"name"`. -/
def nameCachedStore : Config :=
  { cacheOnStore with strCache := [("name", "app")] }

/-- The store `cacheOnStore` after `Int("age")`: the string cache holds `"1"`
for `"age"`. -/
def ageCachedStore : Config :=
  { cacheOnStore with strCache := [("age", "1")] }

/-- The store `ageCachedStore` with its root replaced by `changedRoot`, where
`age` is 2. -/
def ageCachedChanged : Config :=
  { ageCachedStore with data := changedRoot }

/-- The characters the claims allow in a token's name and default: word
characters, dashes and spaces (the class of `envRegex` without the pipe). -/
def isNameChar (c : Char) : Bool :=
  c.isAlphanum || c == '_' || c == '-' || c == ' '

/-- A codec that shows what it was given: the encoder hands the data on as the
blob, and the decoder appends the blob to the destination. -/
def recordingCodec : Codec Value (List Value) :=
  { JSONEncoder := fun data => .ok data,
    JSONDecoder := fun blob dest => (dest ++ [blob], none) }

/-- The store `{"a": [1, 2]}`, the sequence being a `[]interface{}`. -/
def pairSeqStore : Config :=
  { data := [("a", .anySlice [.int 1, .int 2])] }

/-- The store `{"a": [1, 2]}`, the sequence being a `[]int`. -/
def pairIntSeqStore : Config :=
  { data := [("a", .intSlice [1, 2])] }

/-! ## Theorems -/

/-! ### Auxiliary lemmas -/

open strings strconv

theorem containsAt_dot (l : List Char) : containsAt ['.'] l = true ↔ '.' ∈ l := by
  induction l with
  | nil => simp [containsAt]
  | cons c cs ih =>
    simp only [containsAt, Bool.or_eq_true, ih, List.mem_cons]
    simp [List.isPrefixOf]

theorem splitChars_of_not_mem (sep : Char) (l : List Char) (h : sep ∉ l) :
    splitChars sep l = [l] := by
  induction l with
  | nil => rfl
  | cons c cs ih =>
    simp only [List.mem_cons, not_or] at h
    have hc : c ≠ sep := fun e => h.1 e.symm
    simp [splitChars, hc, ih h.2]

theorem splitChars_append (sep : Char) (a b : List Char) (h : sep ∉ a) :
    splitChars sep (a ++ sep :: b) = a :: splitChars sep b := by
  induction a with
  | nil => simp [splitChars]
  | cons c cs ih =>
    simp only [List.mem_cons, not_or] at h
    have hc : c ≠ sep := fun e => h.1 e.symm
    simp [splitChars, hc, ih h.2]

theorem Split_two (k0 k1 : GoString) (h0 : '.' ∉ k0.data) (h1 : '.' ∉ k1.data) :
    Split (k0 ++ "." ++ k1) '.' = [k0, k1] := by
  have : (k0 ++ "." ++ k1).data = k0.data ++ '.' :: k1.data := by
    simp [String.data_append]
  simp [Split, this, splitChars_append _ _ _ h0, splitChars_of_not_mem _ _ h1]

theorem Contains_dot_join (k0 k1 : GoString) : Contains (k0 ++ "." ++ k1) "." = true := by
  have : (k0 ++ "." ++ k1).data = k0.data ++ '.' :: k1.data := by
    simp [String.data_append]
  show containsAt ['.'] _ = true
  rw [containsAt_dot, this]; simp

theorem join_ne_empty (k0 k1 : GoString) : (k0 ++ "." ++ k1 == "") = false := by
  have : (k0 ++ "." ++ k1).data = k0.data ++ '.' :: k1.data := by
    simp [String.data_append]
  simp only [beq_eq_false_iff_ne, ne_eq]
  intro h
  rw [h] at this
  simp at this

theorem digitVal_digitChar (d : Nat) (h : d < 10) : digitVal (digitChar d) = some d := by
  interval_cases d <;> decide

theorem isDigit_digitChar (d : Nat) (h : d < 10) : (digitChar d).isDigit = true := by
  interval_cases d <;> decide

theorem parseUintLoop_fmtDigits (fuel : Nat) : ∀ (u : Nat) (acc : List Char),
    u < fuel → u < 2 ^ 64 →
    parseUintLoop (fmtDigits fuel u acc) 0 = parseUintLoop acc u := by
  induction fuel with
  | zero => intro u acc h; omega
  | succ fuel ih =>
    intro u acc hf hu
    unfold fmtDigits
    split_ifs with h10
    · simp only [parseUintLoop, digitVal_digitChar u h10, maxUint64]
      have hm : u % 18446744073709551616 = u := by omega
      simp [hm]
    · have hlt : u / 10 < fuel := by omega
      rw [ih (u / 10) _ hlt (by omega)]
      have hd : u % 10 < 10 := Nat.mod_lt _ (by norm_num)
      simp only [parseUintLoop, digitVal_digitChar _ hd, maxUint64]
      have e : u / 10 * 10 + u % 10 = u := by omega
      have hc : ¬ (1844674407370955162 ≤ u / 10) := by omega
      have hm : u % 18446744073709551616 = u := by omega
      have hn : ¬ (u < u / 10 * 10) := by omega
      simp [hc, e, hm, hn]

theorem fmtDigits_ne_nil (fuel : Nat) : ∀ (u : Nat) (acc : List Char),
    (0 < fuel ∨ acc ≠ []) → fmtDigits fuel u acc ≠ [] := by
  induction fuel with
  | zero => intro u acc h; simpa [fmtDigits] using h
  | succ fuel ih =>
    intro u acc _
    unfold fmtDigits
    split_ifs
    · simp
    · exact ih _ _ (Or.inr (by simp))

theorem fmtDigits_isDigit (fuel : Nat) : ∀ (u : Nat) (acc : List Char),
    (∀ c ∈ acc, c.isDigit = true) → ∀ c ∈ fmtDigits fuel u acc, c.isDigit = true := by
  induction fuel with
  | zero => intro u acc h; simpa [fmtDigits] using h
  | succ fuel ih =>
    intro u acc h
    unfold fmtDigits
    split_ifs with h10
    · intro c hc
      rcases List.mem_cons.mp hc with rfl | hc
      · exact isDigit_digitChar u h10
      · exact h c hc
    · apply ih
      intro c hc
      rcases List.mem_cons.mp hc with rfl | hc
      · exact isDigit_digitChar _ (Nat.mod_lt _ (by norm_num))
      · exact h c hc

theorem formatNat_isDigit (u : Nat) : ∀ c ∈ formatNat u, c.isDigit = true :=
  fmtDigits_isDigit _ _ _ (by simp)

theorem ParseUint_formatNat (u : Nat) (hu : u < 2 ^ 64) :
    ParseUint (formatNat u) = (u, none) := by
  have hne : formatNat u ≠ [] := fmtDigits_ne_nil _ _ _ (Or.inl (by omega))
  have hl : parseUintLoop (formatNat u) 0 = (u, none) := by
    unfold formatNat
    rw [parseUintLoop_fmtDigits _ _ _ (by omega) hu]; rfl
  cases h : formatNat u with
  | nil => exact absurd h hne
  | cons c cs => rw [h] at hl; simpa [ParseUint] using hl

theorem Atoi_Itoa (n : Int) (hlo : minInt ≤ n) (hhi : n ≤ maxInt) :
    Atoi (Itoa n) = (n, none) := by
  unfold minInt at hlo
  unfold maxInt at hhi
  have hne : formatNat n.natAbs ≠ [] := fmtDigits_ne_nil _ _ _ (Or.inl (by omega))
  have hp : ParseUint (formatNat n.natAbs) = (n.natAbs, none) :=
    ParseUint_formatNat _ (by omega)
  unfold Atoi ParseInt Itoa
  by_cases hneg : n < 0
  · simp only [hneg, if_true]
    simp [hp]
    rw [if_neg (by omega)]
    simp [abs_of_neg hneg]
  · simp only [hneg, if_false]
    obtain ⟨c, rest, hcr⟩ := List.exists_cons_of_ne_nil hne
    have hc : c.isDigit = true := formatNat_isDigit n.natAbs c (by rw [hcr]; simp)
    have h1 : (c == '+') = false := by
      rw [beq_eq_false_iff_ne]; rintro rfl; exact absurd hc (by decide)
    have h2 : (c == '-') = false := by
      rw [beq_eq_false_iff_ne]; rintro rfl; exact absurd hc (by decide)
    simp only [hcr, h1, h2]
    simp only [Bool.or_self, Bool.false_eq_true, if_false]
    rw [← hcr, hp]
    simp
    rw [if_neg (by omega)]
    simp [abs_of_nonneg (not_lt.mp hneg)]

theorem not_dot_mem_Itoa (i : Int) : '.' ∉ (Itoa i).data := by
  have hd : ∀ u, '.' ∉ formatNat u := fun u h =>
    absurd (formatNat_isDigit u _ h) (by decide)
  unfold Itoa
  split_ifs
  · simp only [List.mem_cons, not_or]
    exact ⟨by decide, hd _⟩
  · exact hd _

theorem sliceStep_Itoa {α : Type} (wrap : α → Value) (xs : List α) (i : Int)
    (hi : 0 ≤ i) (hlt : i < xs.length) (hmax : i ≤ maxInt) :
    ∃ x, sliceAt xs i = some x ∧ Config.sliceStep wrap xs (Itoa i) = .next (wrap x) := by
  have hr : Atoi (Itoa i) = (i, none) := Atoi_Itoa i (by unfold minInt; omega) hmax
  have hidx : i.toNat < xs.length := by omega
  refine ⟨xs.get ⟨i.toNat, hidx⟩, ?_, ?_⟩
  · simp [sliceAt, not_lt.mpr hi, List.get?_eq_get hidx]
  · simp [Config.sliceStep, hr, not_lt.mpr hlt.le, sliceAt, not_lt.mpr hi,
      List.getElem?_eq_getElem hidx]

theorem head?_of_initial_segment {x y : List Char} (h : x <+: y) {c : Char}
    (hc : x.head? = some c) : y.head? = some c := by
  obtain ⟨t, rfl⟩ := h
  cases x with
  | nil => simp at hc
  | cons a as => simpa using hc

theorem getLast?_of_suffix {x y : List Char} (h : x <:+ y) {c : Char}
    (hc : x.getLast? = some c) : y.getLast? = some c := by
  obtain ⟨t, rfl⟩ := h
  cases x with
  | nil => simp at hc
  | cons a as =>
    rw [List.getLast?_append, hc]; rfl

theorem trimFunc_eq (p : Char → Bool) (l : List Char) :
    trimFunc p l = (l.dropWhile p).rdropWhile p := rfl

theorem head?_dropWhile_false (p : Char → Bool) (l : List Char) {c : Char}
    (hc : (l.dropWhile p).head? = some c) : p c = false := by
  have := List.head?_dropWhile_not p l
  rw [hc] at this
  exact this

theorem getLast?_rdropWhile_false (p : Char → Bool) (l : List Char) {c : Char}
    (hc : (l.rdropWhile p).getLast? = some c) : p c = false := by
  unfold List.rdropWhile at hc
  rw [List.getLast?_reverse] at hc
  exact head?_dropWhile_false p _ hc

theorem trimFunc_head (p : Char → Bool) (l : List Char) {c : Char}
    (hc : (trimFunc p l).head? = some c) : p c = false :=
  head?_dropWhile_false p l (head?_of_initial_segment (List.rdropWhile_prefix p _) hc)

theorem trimFunc_getLast (p : Char → Bool) (l : List Char) {c : Char}
    (hc : (trimFunc p l).getLast? = some c) : p c = false :=
  getLast?_rdropWhile_false p _ hc

theorem dropWhile_of_head (p : Char → Bool) (t : List Char)
    (h : ∀ c, t.head? = some c → p c = false) : t.dropWhile p = t := by
  cases t with
  | nil => rfl
  | cons a as => simp [List.dropWhile, h a rfl]

theorem trimFunc_head_of (p : Char → Bool) (t : List Char)
    (h : ∀ c, t.head? = some c → p c = false) {c : Char}
    (hc : (trimFunc p t).head? = some c) : t.head? = some c := by
  have := head?_of_initial_segment (List.rdropWhile_prefix p _) hc
  rwa [dropWhile_of_head p t h] at this

theorem trimFunc_getLast_of (p : Char → Bool) (t : List Char)
    (h : ∀ c, t.getLast? = some c → p c = false) {c : Char}
    (hc : (trimFunc p t).getLast? = some c) : t.getLast? = some c := by
  rw [trimFunc_eq] at hc
  have hsuf : t.dropWhile p <:+ t := List.dropWhile_suffix p
  cases hd : (t.dropWhile p).getLast? with
  | none =>
    rw [List.getLast?_eq_none_iff] at hd
    rw [hd] at hc
    simp at hc
  | some z =>
    have hz : p z = false := h z (getLast?_of_suffix hsuf hd)
    have hself : (t.dropWhile p).rdropWhile p = t.dropWhile p := by
      unfold List.rdropWhile
      rw [dropWhile_of_head, List.reverse_reverse]
      intro c hc'
      rw [List.head?_reverse, hd] at hc'
      cases hc'
      exact hz
    rw [hself] at hc
    exact getLast?_of_suffix hsuf hc

theorem trimFunc_eq_nil_iff (p : Char → Bool) (t : List Char) :
    trimFunc p t = [] ↔ ∀ x ∈ t, p x = true := by
  rw [trimFunc_eq, List.rdropWhile_eq_nil_iff]
  constructor
  · intro h
    have : t.dropWhile p = [] := by
      cases hd : t.dropWhile p with
      | nil => rfl
      | cons a as =>
        have h1 : p a = false := head?_dropWhile_false p t (by rw [hd]; rfl)
        have h2 : p a = true := h a (by rw [hd]; simp)
        rw [h1] at h2; cases h2
    exact List.dropWhile_eq_nil_iff.mp this
  · intro h x hx
    exact h x ((List.dropWhile_suffix p).subset hx)

theorem isDot_eq (c : Char) : (".".data.contains c) = (c == '.') := by
  show (['.'].contains c) = _
  simp only [List.contains, List.elem]
  cases c == '.' <;> rfl

theorem formatKey_data (key : GoString) :
    (formatKey key).data = trimFunc (fun c => c == '.') (TrimSpace key).data := by
  show trimFunc (fun c => ".".data.contains c) _ = _
  congr 1
  funext c
  exact isDot_eq c

theorem getLoop_found_store (c : Config) (key : GoString) (ks : List GoString) :
    ∀ (item v : Value) (c1 : Config),
      Config.getLoop c key item ks = .ok ((v, true), c1) → c1 = c := by
  induction ks with
  | nil =>
    intro item v c1 h
    simp only [Config.getLoop, Except.ok.injEq, Prod.mk.injEq] at h
    exact h.2.symm
  | cons k ks ih =>
    intro item v c1 h
    unfold Config.getLoop at h
    cases hs : Config.getStep key item k with
    | next item1 => rw [hs] at h; exact ih _ _ _ h
    | miss => rw [hs] at h; simp at h
    | fail err => rw [hs] at h; simp at h
    | failf msg => rw [hs] at h; simp at h
    | panic p => rw [hs] at h; simp at h

theorem GetValue_found_store (c : Config) (key : GoString) (findByPath : List Bool)
    (v : Value) (c1 : Config)
    (h : c.GetValue key findByPath = .ok ((v, true), c1)) : c1 = c := by
  unfold Config.GetValue at h
  simp only at h
  split_ifs at h with h1 h2 h3
  · simp at h
  · split at h
    · simp only [Except.ok.injEq, Prod.mk.injEq] at h; exact h.2.symm
    · simp at h
  · split at h
    · simp only [Except.ok.injEq, Prod.mk.injEq] at h; exact h.2.symm
    · simp at h
  · split at h
    · simp only [Except.ok.injEq, Prod.mk.injEq] at h; exact h.2.symm
    · split at h
      · simp at h
      · split at h
        · simp at h
        · exact getLoop_found_store _ _ _ _ _ _ h

theorem ParseInt_error_value (s : GoString) :
    ((ParseInt s).2 = some .ErrSyntax → (ParseInt s).1 = 0) ∧
    ((ParseInt s).2 = some .ErrRange →
      (ParseInt s).1 = if s.data.head? = some '-' then minInt else maxInt) := by
  unfold ParseInt
  cases hs : s.data with
  | nil => simp
  | cons ch rest =>
    simp only [List.head?_cons, Option.some.injEq]
    rcases hp : ParseUint (if (ch == '+' || ch == '-') = true then rest else ch :: rest) with ⟨un, er⟩
    rcases er with _ | (_ | _)
    · by_cases hneg : ch = '-'
      · subst hneg
        simp only [beq_self_eq_true, Bool.not_true, Bool.false_and, Bool.false_eq_true,
          if_false, Bool.true_and, decide_eq_true_eq, if_true]
        split_ifs <;> simp [minInt]
      · have hb : (ch == '-') = false := by simpa using hneg
        simp only [hb, Bool.not_false, Bool.true_and, decide_eq_true_eq, Bool.false_and,
          Bool.false_eq_true, if_false, hneg]
        split_ifs <;> simp [maxInt]
    · simp
    · by_cases hneg : ch = '-'
      · subst hneg
        simp only [beq_self_eq_true, Bool.not_true, Bool.false_and, Bool.false_eq_true,
          if_false, Bool.true_and, decide_eq_true_eq, if_true]
        split_ifs <;> simp [minInt]
      · have hb : (ch == '-') = false := by simpa using hneg
        simp only [hb, Bool.not_false, Bool.true_and, decide_eq_true_eq, Bool.false_and,
          Bool.false_eq_true, if_false, hneg]
        split_ifs <;> simp [maxInt]

theorem strCacheHit_none (c : Config) (key : GoString)
    (h : c.opts.EnableCache = false ∨ c.strCache.lookup key = none) :
    c.strCacheHit key = none := by
  unfold Config.strCacheHit
  rcases h with h | h
  · simp [h]
  · simp [h]

theorem addStrCache_errors (c : Config) (key value : GoString) :
    (c.addStrCache key value).errors = c.errors := by
  unfold Config.addStrCache
  split_ifs <;> rfl

theorem getString_fresh (c : Config) (rt : Runtime) (key : GoString) (v : Value)
    (hmiss : c.strCacheHit key = none)
    (hget : c.GetValue key [] = .ok ((v, true), c)) :
    c.getString rt key =
      .ok ((c.stringForm rt v, true), c.addStrCache key (c.stringForm rt v)) := by
  simp [Config.getString, hmiss, hget]

/-! ### Resolution and existence -/

/-- C1 (fails on the code): on the root `{"a": [ {"k": 1} ]}` the key `"a.0.k"`
passes through a sequence element and continues into it. `GetValue` replaces
`item` by the element and finds the value, while the slice cases of `Exists`
leave `item` unchanged, read `"k"` as an index of the same sequence and
answer `false`. -/
theorem exists_false_where_getValue_found :
    nestedSeqStore.GetValue "a.0.k" [] = .ok ((.int 1, true), nestedSeqStore) ∧
    nestedSeqStore.Exists "a.0.k" [] = false ∧
    nestedSeqStore.GetValue "a.0.k" [true] = .ok ((.int 1, true), nestedSeqStore) ∧
    nestedSeqStore.Exists "a.0.k" [true] = false :=
  ⟨rfl, rfl, rfl, rfl⟩

/-- C2 (as stated, refuted): the root `{"": 1}` has the normalised form of the
key `""` as a key, yet `GetValue("")` returns not found and records
`errInvalidKey`, because the empty normalised key is refused before the root
is consulted. -/
theorem getValue_literal_empty_key_counterexample :
    emptyKeyStore.data.lookup (formatKey "") = some (.float "1") ∧
    emptyKeyStore.GetValue "" [] =
      .ok ((.nil, false), emptyKeyStore.addError (some .errInvalidKey)) :=
  ⟨rfl, rfl⟩

/-- C2 (amended): for every root and key, if the normalised key
`formatKey key` is not empty and is itself a key of the root mapping, then
`GetValue` returns exactly `root[formatKey key]` with `found = true` and
leaves the store as it was, whether or not the key contains dots and whatever
`findByPath` is. -/
theorem getValue_literal_top_key (c : Config) (key : GoString) (findByPath : List Bool)
    (v : Value) (hne : formatKey key ≠ "")
    (h : c.data.lookup (formatKey key) = some v) :
    c.GetValue key findByPath = .ok ((v, true), c) := by
  simp [Config.GetValue, hne, h]

/-- C2, witness: the test store has the literal top-level key `"map1.key2"`
and also `map1 = {key2: "val2"}`; the literal entry wins over path splitting,
which is what resolves the sibling key `"map1.key"`. -/
theorem getValue_literal_top_key_witness :
    formatKey " map1.key2. " ≠ "" ∧
    testStore.data.lookup (formatKey " map1.key2. ") = some (.str "literal") ∧
    testStore.GetValue "map1.key" [true] = .ok ((.str "val", true), testStore) ∧
    testStore.GetValue " map1.key2. " [true] = .ok ((.str "literal", true), testStore) :=
  ⟨by decide, rfl, rfl, getValue_literal_top_key testStore _ _ _ (by decide) rfl⟩

/-- C3 (as stated, refuted): on the root `{"": 1}` the key `" "` normalises to
the empty string, which contains no dot and is a top-level key of the root,
and path lookup is switched off; still `GetValue` reports not found. -/
theorem getValue_exact_match_empty_key_counterexample :
    pathDisabled [false] = true ∧
    strings.Contains (formatKey " ") "." = false ∧
    (∃ w, emptyKeyStore.data.lookup (formatKey " ") = some w) ∧
    Config.foundFlag (emptyKeyStore.GetValue " " [false]) = some false :=
  ⟨rfl, rfl, ⟨_, rfl⟩, rfl⟩

/-- C3 (amended): for every root and key, if `findByPath` is given as false or
the normalised key contains no `.`, then `GetValue` returns, and it reports
found if and only if the normalised key is not empty and is a top-level key of
the root. -/
theorem getValue_exact_match_only (c : Config) (key : GoString) (findByPath : List Bool)
    (h : pathDisabled findByPath = true ∨ strings.Contains (formatKey key) "." = false) :
    ∃ v ok c1, c.GetValue key findByPath = .ok ((v, ok), c1) ∧
      (ok = true ↔ formatKey key ≠ "" ∧ ∃ w, c.data.lookup (formatKey key) = some w) := by
  by_cases hk : formatKey key = ""
  · exact ⟨.nil, false, c.addError (some .errInvalidKey), by simp [Config.GetValue, hk],
      by simp [hk]⟩
  · cases hl : c.data.lookup (formatKey key) with
    | some w => exact ⟨w, true, c, by simp [Config.GetValue, hk, hl], by simp [hk]⟩
    | none =>
      refine ⟨.nil, false, c, ?_, by simp⟩
      rcases h with h | h <;> simp [Config.GetValue, hk, hl, h]

/-- C3, witness: `GetValue("map1.key1", false)` on the test store, which has
`map1 = {key1: ...}` but no literal top-level key `"map1.key1"`; the call is
not found. -/
theorem getValue_exact_match_only_witness :
    (pathDisabled [false] = true ∨
      strings.Contains (formatKey "map1.key1") "." = false) ∧
    (Value.mapEntry (.mapSI [("key", .str "val"), ("key1", .str "val1"),
      ("key2", .str "val2")]) "key1" = some (.str "val1")) ∧
    testStore.data.lookup (formatKey "map1.key1") = none ∧
    Config.foundFlag (testStore.GetValue "map1.key1" [false]) = some false ∧
    ∃ v ok c1, testStore.GetValue "map1.key1" [false] = .ok ((v, ok), c1) ∧
      (ok = true ↔ formatKey "map1.key1" ≠ "" ∧
        ∃ w, testStore.data.lookup (formatKey "map1.key1") = some w) :=
  ⟨Or.inl rfl, rfl, rfl, rfl,
    getValue_exact_match_only testStore "map1.key1" [false] (Or.inl rfl)⟩

/-- C4: for every root, every top-level key `k0` and sub-key `k1`, both
non-empty and free of `.`, with `formatKey` leaving `"k0.k1"` unchanged, where
`"k0.k1"` is not itself a top-level key and `root[k0]` is a mapping of one of
the three shapes: with path lookup enabled `GetValue("k0.k1")` returns
`(root[k0][k1], true)` when the mapping contains `k1` and `(nil, false)` when
it does not; the store is unchanged in both cases. -/
theorem getValue_map_descent (c : Config) (k0 k1 : GoString) (findByPath : List Bool)
    (item : Value) (_h0 : k0 ≠ "") (_h1 : k1 ≠ "")
    (hd0 : '.' ∉ k0.data) (hd1 : '.' ∉ k1.data)
    (hfmt : formatKey (k0 ++ "." ++ k1) = k0 ++ "." ++ k1)
    (hlit : c.data.lookup (k0 ++ "." ++ k1) = none)
    (htop : c.data.lookup k0 = some item) (hmap : item.isMapping = true)
    (hpath : pathDisabled findByPath = false) :
    c.GetValue (k0 ++ "." ++ k1) findByPath =
      .ok (match item.mapEntry k1 with
        | some v => (v, true)
        | none => (Value.nil, false), c) := by
  have hsplit := Split_two k0 k1 hd0 hd1
  have hcont := Contains_dot_join k0 k1
  have hne := join_ne_empty k0 k1
  simp only [Config.GetValue, hfmt, hne, hlit, hpath, hcont, hsplit, htop]
  cases item <;> simp [Value.isMapping] at hmap
  · case mapSS m =>
    cases hm : m.lookup k1 <;> simp [Config.getLoop, Config.getStep, Value.mapEntry, hm]
  · case mapSI m =>
    cases hm : m.lookup k1 <;> simp [Config.getLoop, Config.getStep, Value.mapEntry, hm]
  · case mapII m =>
    cases hm : lookupAny k1 m <;> simp [Config.getLoop, Config.getStep, Value.mapEntry, hm]

/-- C4, witness: `"yMap.k1"` on the store built by `LoadData`, where `yMap` is
a `map[interface{}]interface{}`; the call returns `(23, true)`. -/
theorem getValue_map_descent_witness :
    ("yMap" : GoString) ≠ "" ∧ ("k1" : GoString) ≠ "" ∧
    '.' ∉ ("yMap" : GoString).data ∧ '.' ∉ ("k1" : GoString).data ∧
    formatKey ("yMap" ++ "." ++ "k1") = "yMap" ++ "." ++ "k1" ∧
    loadedStore.data.lookup ("yMap" ++ "." ++ "k1") = none ∧
    loadedStore.GetValue ("yMap" ++ "." ++ "k1") [] =
      .ok ((.int 23, true), loadedStore) :=
  ⟨by decide, by decide, by decide, by decide, by decide, rfl,
    getValue_map_descent loadedStore "yMap" "k1" []
      (.mapII [(.str "k0", .str "v0"), (.str "k1", .int 23)])
      (by decide) (by decide) (by decide) (by decide) (by decide) rfl rfl rfl rfl⟩

/-! ### Sequence indexing -/

/-- C5 (as stated, refuted): the root `{"a.b": [1, 2]}` maps the top-level key
`"a.b"` to a sequence and `"a.b.0"` is not a top-level key, yet
`GetValue("a.b.0")` is not found: the key is split at every dot and the first
segment `"a"` is not in the root. Likewise the root `{" a": [1, 2]}` and the
key `" a.0"`, which is normalised to `"a.0"` before the lookup. -/
theorem getValue_seq_index_dotted_key_counterexample :
    dottedKeyStore.data.lookup "a.b" = some (.intSlice [1, 2]) ∧
    (Value.intSlice [1, 2]).seqEntry 0 = some (.int 1) ∧
    dottedKeyStore.data.lookup "a.b.0" = none ∧
    dottedKeyStore.GetValue "a.b.0" [] = .ok ((.nil, false), dottedKeyStore) ∧
    spacedKeyStore.data.lookup " a" = some (.intSlice [1, 2]) ∧
    spacedKeyStore.data.lookup " a.0" = none ∧
    spacedKeyStore.GetValue " a.0" [] = .ok ((.nil, false), spacedKeyStore) :=
  ⟨rfl, rfl, rfl, rfl, rfl, rfl, rfl⟩

/-- C5 (amended): for every root whose top-level key `k` contains no `.` and
maps to a sequence `s` of one of the three shapes, and every integer `i` with
`0 ≤ i < len(s)` written in plain decimal, provided `formatKey` leaves `"k.i"`
unchanged and `"k.i"` is not itself a top-level key, `GetValue("k.i")` with
path lookup enabled returns `(s[i], true)` and leaves the store unchanged. -/
theorem getValue_seq_index (c : Config) (k : GoString) (i : Int) (findByPath : List Bool)
    (item : Value) (n : Nat) (hd : '.' ∉ k.data)
    (hfmt : formatKey (k ++ "." ++ strconv.Itoa i) = k ++ "." ++ strconv.Itoa i)
    (hlit : c.data.lookup (k ++ "." ++ strconv.Itoa i) = none)
    (htop : c.data.lookup k = some item) (hlen : item.seqLen = some n)
    (hi : 0 ≤ i) (hlt : i < n) (hmax : i ≤ maxInt)
    (hpath : pathDisabled findByPath = false) :
    ∃ x, item.seqEntry i = some x ∧
      c.GetValue (k ++ "." ++ strconv.Itoa i) findByPath = .ok ((x, true), c) := by
  have hsplit := Split_two k (Itoa i) hd (not_dot_mem_Itoa i)
  have hcont := Contains_dot_join k (Itoa i)
  have hne := join_ne_empty k (Itoa i)
  simp only [Config.GetValue, hfmt, hne, hlit, hpath, hcont, hsplit, htop]
  cases item <;> simp [Value.seqLen] at hlen
  · case intSlice xs =>
    subst hlen
    obtain ⟨x, hx, hs⟩ := sliceStep_Itoa Value.int xs i hi hlt hmax
    exact ⟨.int x, by simp [Value.seqEntry, hx], by simp [Config.getLoop, Config.getStep, hs]⟩
  · case strSlice xs =>
    subst hlen
    obtain ⟨x, hx, hs⟩ := sliceStep_Itoa Value.str xs i hi hlt hmax
    exact ⟨.str x, by simp [Value.seqEntry, hx], by simp [Config.getLoop, Config.getStep, hs]⟩
  · case anySlice xs =>
    subst hlen
    obtain ⟨x, hx, hs⟩ := sliceStep_Itoa id xs i hi hlt hmax
    exact ⟨x, by simp [Value.seqEntry, hx], by simp [Config.getLoop, Config.getStep, hs]⟩

/-- C5, witness: `"arr1.1"` on the test store returns `("val1", true)`. -/
theorem getValue_seq_index_witness :
    '.' ∉ ("arr1" : GoString).data ∧ strconv.Itoa 1 = "1" ∧
    formatKey ("arr1" ++ "." ++ strconv.Itoa 1) = "arr1" ++ "." ++ strconv.Itoa 1 ∧
    testStore.data.lookup ("arr1" ++ "." ++ strconv.Itoa 1) = none ∧
    (0 : Int) ≤ 1 ∧ (1 : Int) < (3 : Nat) ∧ (1 : Int) ≤ maxInt ∧
    (Value.anySlice [.str "val", .str "val1", .str "val2"]).seqEntry 1 =
      some (.str "val1") ∧
    ∃ x, (Value.anySlice [.str "val", .str "val1", .str "val2"]).seqEntry 1 = some x ∧
      testStore.GetValue ("arr1" ++ "." ++ strconv.Itoa 1) [] = .ok ((x, true), testStore) :=
  ⟨by decide, by decide, by decide, rfl, by decide, by decide, by decide, rfl,
    getValue_seq_index testStore "arr1" 1 [] _ 3 (by decide) (by decide) rfl rfl rfl
      (by decide) (by decide) (by decide) rfl⟩

/-- C6 (fails on the code): the guard of the slice cases is `len(typeData) < i`,
so an index equal to the length passes it and the indexing `typeData[i]`
panics. On the length-3 sequence `arr1` of the test store the key `"arr1.3"`
ends in "index out of range [3] with length 3", and so does index 2 on the
`[]int` and the `[]string` of length 2; only indices above the length
(`"arr1.100"`) are reported as not found. -/
theorem getValue_index_eq_len_panics :
    testStore.GetValue "arr1.3" [] = .error (.indexOutOfRange 3 3) ∧
    loadedStore.GetValue "newIArr.2" [] = .error (.indexOutOfRange 2 2) ∧
    loadedStore.GetValue "newSArr.2" [] = .error (.indexOutOfRange 2 2) ∧
    testStore.GetValue "arr1.100" [] = .ok ((.nil, false), testStore.addError none) :=
  ⟨rfl, rfl, rfl, rfl⟩

/-- C7 (fails on the code): `strconv.Atoi` accepts `"-1"`, the guard
`len(typeData) < i` lets the negative index through, and `typeData[-1]`
panics, for each of the three sequence shapes; a segment that is not a number
(`"notExist"`) is reported as not found with the parse error recorded. -/
theorem getValue_negative_index_panics :
    testStore.GetValue "arr1.-1" [] = .error (.indexOutOfRange (-1) 3) ∧
    loadedStore.GetValue "newIArr.-1" [] = .error (.indexOutOfRange (-1) 2) ∧
    loadedStore.GetValue "newSArr.-1" [] = .error (.indexOutOfRange (-1) 2) ∧
    testStore.GetValue "arr1.notExist" [] =
      .ok ((.nil, false),
        testStore.addError (some (.numError "notExist" .ErrSyntax))) :=
  ⟨rfl, rfl, rfl, rfl⟩

/-! ### Key normalisation -/

/-- C8 (as stated, refuted): `formatKey` trims white space first and dots
second, once each. The key `". ."` is made only of dots and white space, yet
it normalises to `" "`, which is not empty and is white space at both ends;
likewise `". a ."` normalises to `" a "`. -/
theorem formatKey_keeps_inner_space_counterexample :
    formatKey ". ." = " " ∧ formatKey ". ." ≠ "" ∧
    (formatKey ". .").data.head? = some ' ' ∧ strings.isSpace ' ' = true ∧
    formatKey ". a ." = " a " :=
  ⟨by decide, by decide, by decide, by decide, by decide⟩

/-- C8 (amended): for every key, the normalised key `formatKey key` neither
starts nor ends with `.`; it does not start with white space provided the key
with its surrounding white space removed does not start with `.`, and it does
not end with white space provided that trimmed key does not end with `.`; and
it is the empty key exactly when the key with its surrounding white space
removed consists of dots only (as for `" .. "`). -/
theorem formatKey_shape (key : GoString) :
    (formatKey key).data.head? ≠ some '.' ∧ (formatKey key).data.getLast? ≠ some '.' ∧
    ((strings.TrimSpace key).data.head? ≠ some '.' →
      ∀ ch, (formatKey key).data.head? = some ch → strings.isSpace ch = false) ∧
    ((strings.TrimSpace key).data.getLast? ≠ some '.' →
      ∀ ch, (formatKey key).data.getLast? = some ch → strings.isSpace ch = false) ∧
    (formatKey key = "" ↔ ∀ ch ∈ (strings.TrimSpace key).data, ch = '.') := by
  rw [formatKey_data]
  refine ⟨?_, ?_, ?_, ?_, ?_⟩
  · intro h
    have := trimFunc_head _ _ h
    simp at this
  · intro h
    have := trimFunc_getLast _ _ h
    simp at this
  · intro hd ch hch
    have ht : (TrimSpace key).data.head? = some ch := by
      apply trimFunc_head_of _ _ _ hch
      intro c hc
      simp only [beq_eq_false_iff_ne, ne_eq]
      rintro rfl
      exact hd hc
    exact trimFunc_head isSpace key.data ht
  · intro hd ch hch
    have ht : (TrimSpace key).data.getLast? = some ch := by
      apply trimFunc_getLast_of _ _ _ hch
      intro c hc
      simp only [beq_eq_false_iff_ne, ne_eq]
      rintro rfl
      exact hd hc
    exact trimFunc_getLast isSpace key.data ht
  · have e : formatKey key = "" ↔ (formatKey key).data = [] := by
      constructor
      · intro h; rw [h]
      · intro h; exact String.ext h
    rw [e, formatKey_data, trimFunc_eq_nil_iff]
    simp only [beq_iff_eq]

/-- C8, witness: the key `"  map1.key1. "` has white space and a trailing dot
around it; its trimmed form starts with `m`, so the normalised key starts with
a character that is not white space, and `" .. "` normalises to the empty
key. -/
theorem formatKey_shape_witness :
    (strings.TrimSpace "  map1.key1. ").data.head? ≠ some '.' ∧
    (formatKey "  map1.key1. ").data.head? = some 'm' ∧
    strings.isSpace 'm' = false ∧
    formatKey "  map1.key1. " = "map1.key1" ∧
    (∀ ch ∈ (strings.TrimSpace " .. ").data, ch = '.') ∧
    formatKey " .. " = "" :=
  ⟨by decide, by decide,
    (formatKey_shape "  map1.key1. ").2.2.1 (by decide) 'm' (by decide),
    by decide, by decide, (formatKey_shape " .. ").2.2.2.2.2 (by decide)⟩

/-! ### Integer reads -/

/-- C9 (as stated, refuted): `Int` and `Int64` read through `getString`, which
answers from the string cache before looking at the root. In a store with the
cache enabled whose cache still holds `"7"` for `"age"`, the integer `123`
stored at the resolvable top-level key `"age"` is not what `Int("age")` and
`Int64("age")` return. -/
theorem int_read_stale_cache_counterexample :
    staleCacheStore.GetValue "age" [] = .ok ((.int 123, true), staleCacheStore) ∧
    staleCacheStore.Int fooRuntime "age" [] = .ok (7, staleCacheStore) ∧
    staleCacheStore.Int64 fooRuntime "age" [] = .ok (7, staleCacheStore) :=
  ⟨rfl, rfl, rfl⟩

/-- C9 (amended): for every machine integer `n` stored as an `int` at a key
that `GetValue` resolves (a top-level key, a map entry or an element of an
integer sequence), provided the string cache is disabled or holds no entry for
that key string, `Int(key)` and `Int64(key)` return `n` whatever default is
passed, and no error is recorded: the decimal text `fmt` prints for `n`
parses back to `n`. -/
theorem int_read_roundtrip (c : Config) (rt : Runtime) (key : GoString) (n : Int)
    (defVal defVal64 : List GoInt) (c1 : Config)
    (hlo : minInt ≤ n) (hhi : n ≤ maxInt)
    (hcache : c.opts.EnableCache = false ∨ c.strCache.lookup key = none)
    (hget : c.GetValue key [] = .ok ((.int n, true), c1)) :
    strconv.Atoi (Sprint rt (.int n)) = (n, none) ∧
    ∃ c2, c.Int rt key defVal = .ok (n, c2) ∧ c.Int64 rt key defVal64 = .ok (n, c2) ∧
      c2.errors = c.errors := by
  have hr : Atoi (Itoa n) = (n, none) := Atoi_Itoa n hlo hhi
  have hc1 : c1 = c := GetValue_found_store c key [] _ c1 hget
  subst hc1
  have hmiss : c1.strCacheHit key = none := strCacheHit_none c1 key hcache
  refine ⟨hr, ?_⟩
  have hgs := getString_fresh c1 rt key _ hmiss hget
  have hsf : c1.stringForm rt (.int n) = Itoa n := rfl
  rw [hsf] at hgs
  have hr2 : ParseInt (Itoa n) = (n, none) := hr
  refine ⟨c1.addStrCache key (Itoa n), ?_, ?_, addStrCache_errors _ _ _⟩
  · simp [Config.Int, hgs, hr]
  · simp [Config.Int64, hgs, hr2]

/-- C9, witness: element 2 of the integer sequence `iArr` of the number store,
read as `Int("iArr.2", 5)` and `Int64("iArr.2")`, is `36`. -/
theorem int_read_roundtrip_witness :
    minInt ≤ 36 ∧ (36 : Int) ≤ maxInt ∧
    (numberStore.opts.EnableCache = false ∨ numberStore.strCache.lookup "iArr.2" = none) ∧
    numberStore.GetValue "iArr.2" [] = .ok ((.int 36, true), numberStore) ∧
    strconv.Atoi (Sprint fooRuntime (.int 36)) = (36, none) ∧
    ∃ c2, numberStore.Int fooRuntime "iArr.2" [5] = .ok (36, c2) ∧
      numberStore.Int64 fooRuntime "iArr.2" [] = .ok (36, c2) ∧
      c2.errors = numberStore.errors :=
  ⟨by decide, by decide, Or.inl rfl, rfl,
    int_read_roundtrip numberStore fooRuntime "iArr.2" 36 [5] [] numberStore
      (by decide) (by decide) (Or.inl rfl) rfl⟩

/-- C10 (as stated, refuted): the value `strconv` returns next to a range error
is not zero. The key `"big"` of the number store resolves to the string
`"99999999999999999999"`, a well-formed literal outside the integer range;
`Int("big", 5)` and `Int64("big", 5)` return `1<<63 - 1`, and for the negative
literal under `"low"` they return `-1<<63`. And in the store with a stale
string cache the key `"name"` resolves to `"app"`, which does not parse, while
`Int("name")` answers `8` from the cache and records nothing. -/
theorem int_parse_range_counterexample :
    numberStore.GetValue "big" [] =
      .ok ((.str "99999999999999999999", true), numberStore) ∧
    strconv.Atoi "99999999999999999999" = (maxInt, some .ErrRange) ∧
    numberStore.Int fooRuntime "big" [5] = .ok (9223372036854775807,
      numberStore.addError (some (.numError "99999999999999999999" .ErrRange))) ∧
    numberStore.Int64 fooRuntime "big" [5] = .ok (9223372036854775807,
      numberStore.addError (some (.numError "99999999999999999999" .ErrRange))) ∧
    numberStore.Int fooRuntime "low" [] = .ok (-9223372036854775808,
      numberStore.addError (some (.numError "-99999999999999999999" .ErrRange))) ∧
    staleCacheStore.GetValue "name" [] = .ok ((.str "app", true), staleCacheStore) ∧
    strconv.Atoi "app" = (0, some .ErrSyntax) ∧
    staleCacheStore.Int fooRuntime "name" [] = .ok (8, staleCacheStore) :=
  ⟨rfl, rfl, rfl, rfl, rfl, rfl, rfl, rfl⟩

/-- C10 (amended): for every store and every key that `GetValue` resolves to a
value whose string form fails the base-10 integer parse, provided the string
cache is disabled or holds no entry for that key string, `Int(key)` and
`Int64(key)` ignore any supplied default and append exactly one error, the
parse error `strconv` reports, to the store's error list; what they return
goes by the kind of that error: 0 when it is a syntax error
(`strconv.ErrSyntax`, as for `"app"`, `"1.5"`, `"12x"`), and the nearest bound
of the integer range (`-1<<63` for a text starting with `-`, `1<<63 - 1`
otherwise) when it is a range error (`strconv.ErrRange`, as for
`"99999999999999999999"`, and also for `"99999999999999999999x"`, where the
digits overflow before the bad character is read). -/
theorem int_parse_failure (c : Config) (rt : Runtime) (key : GoString)
    (defVal defVal64 : List GoInt) (v : Value) (c1 : Config) (e : strconv.NumErr)
    (hcache : c.opts.EnableCache = false ∨ c.strCache.lookup key = none)
    (hget : c.GetValue key [] = .ok ((v, true), c1))
    (herr : (strconv.Atoi (c.stringForm rt v)).2 = some e) :
    ∃ r c2, c.Int rt key defVal = .ok (r, c2) ∧ c.Int64 rt key defVal64 = .ok (r, c2) ∧
      c2.errors = c.errors ++ [some (.numError (c.stringForm rt v) e)] ∧
      (e = .ErrSyntax → r = 0) ∧
      (e = .ErrRange →
        r = if (c.stringForm rt v).data.head? = some '-' then minInt else maxInt) := by
  have hc1 : c1 = c := GetValue_found_store c key [] _ c1 hget
  subst hc1
  have hmiss : c1.strCacheHit key = none := strCacheHit_none c1 key hcache
  have hval := ParseInt_error_value (c1.stringForm rt v)
  have herr2 : (ParseInt (c1.stringForm rt v)).2 = some e := herr
  rcases hp : ParseInt (c1.stringForm rt v) with ⟨r, er⟩
  have hp2 : Atoi (c1.stringForm rt v) = (r, er) := hp
  rw [hp] at herr2 hval
  simp only at herr2 hval
  subst herr2
  have hgs := getString_fresh c1 rt key _ hmiss hget
  refine ⟨r, (c1.addStrCache key (c1.stringForm rt v)).addError
    (some (.numError (c1.stringForm rt v) e)), ?_, ?_, ?_, ?_, ?_⟩
  · simp [Config.Int, hgs, hp2]
  · simp [Config.Int64, hgs, hp]
  · simp [Config.addError, addStrCache_errors]
  · intro he; exact hval.1 (by rw [he])
  · intro he; exact hval.2 (by rw [he])

/-- C10, witness: the key `"ratio"` of the number store resolves to `"1.5"`;
`Int("ratio", 5)` and `Int64("ratio", 5)` return 0 and record the syntax
error. The kind of the error is what `strconv` reports: `"12x"` is a syntax
error with value 0, while `"99999999999999999999x"` is a range error with
value `1<<63 - 1`. -/
theorem int_parse_failure_witness :
    (numberStore.opts.EnableCache = false ∨ numberStore.strCache.lookup "ratio" = none) ∧
    numberStore.GetValue "ratio" [] = .ok ((.str "1.5", true), numberStore) ∧
    (strconv.Atoi (numberStore.stringForm fooRuntime (.str "1.5"))).2 = some .ErrSyntax ∧
    strconv.Atoi "12x" = (0, some .ErrSyntax) ∧
    strconv.Atoi "99999999999999999999x" = (maxInt, some .ErrRange) ∧
    numberStore.Int fooRuntime "ratio" [5] =
      .ok (0, numberStore.addError (some (.numError "1.5" .ErrSyntax))) ∧
    ∃ r c2, numberStore.Int fooRuntime "ratio" [5] = .ok (r, c2) ∧
      numberStore.Int64 fooRuntime "ratio" [5] = .ok (r, c2) ∧
      c2.errors = numberStore.errors ++
        [some (.numError (numberStore.stringForm fooRuntime (.str "1.5")) .ErrSyntax)] ∧
      (strconv.NumErr.ErrSyntax = .ErrSyntax → r = 0) ∧
      (strconv.NumErr.ErrSyntax = .ErrRange →
        r = if (numberStore.stringForm fooRuntime (.str "1.5")).data.head? = some '-'
          then minInt else maxInt) :=
  ⟨Or.inl rfl, rfl, rfl, rfl, rfl, rfl,
    int_parse_failure numberStore fooRuntime "ratio" [5] [5] (.str "1.5") numberStore
      .ErrSyntax (Or.inl rfl) rfl rfl⟩

/-! ### Auxiliary lemmas: what a read leaves of the store -/

theorem getLoop_frame (c : Config) (key : GoString) (ks : List GoString) :
    ∀ (item : Value) (r : Value × Bool) (c1 : Config),
      Config.getLoop c key item ks = .ok (r, c1) →
      c1.opts = c.opts ∧ c1.data = c.data ∧ c1.strCache = c.strCache ∧
      c1.sArrCache = c.sArrCache ∧ c1.sMapCache = c.sMapCache := by
  induction ks with
  | nil =>
    intro item r c1 h
    simp only [Config.getLoop, Except.ok.injEq, Prod.mk.injEq] at h
    obtain ⟨-, rfl⟩ := h
    exact ⟨rfl, rfl, rfl, rfl, rfl⟩
  | cons k ks ih =>
    intro item r c1 h
    unfold Config.getLoop at h
    cases hs : Config.getStep key item k with
    | next item1 => rw [hs] at h; exact ih _ _ _ h
    | miss =>
      rw [hs] at h
      simp only [Except.ok.injEq, Prod.mk.injEq] at h
      obtain ⟨-, rfl⟩ := h
      exact ⟨rfl, rfl, rfl, rfl, rfl⟩
    | fail err =>
      rw [hs] at h
      simp only [Except.ok.injEq, Prod.mk.injEq] at h
      obtain ⟨-, rfl⟩ := h
      exact ⟨rfl, rfl, rfl, rfl, rfl⟩
    | failf msg =>
      rw [hs] at h
      simp only [Except.ok.injEq, Prod.mk.injEq] at h
      obtain ⟨-, rfl⟩ := h
      exact ⟨rfl, rfl, rfl, rfl, rfl⟩
    | panic p => rw [hs] at h; simp at h

theorem GetValue_frame (c : Config) (key : GoString) (findByPath : List Bool)
    (r : Value × Bool) (c1 : Config) (h : c.GetValue key findByPath = .ok (r, c1)) :
    c1.opts = c.opts ∧ c1.data = c.data ∧ c1.strCache = c.strCache ∧
    c1.sArrCache = c.sArrCache ∧ c1.sMapCache = c.sMapCache := by
  unfold Config.GetValue at h
  simp only at h
  have triv : ∀ (x : Value × Bool) (c0 : Config),
      (c0.opts = c.opts ∧ c0.data = c.data ∧ c0.strCache = c.strCache ∧
        c0.sArrCache = c.sArrCache ∧ c0.sMapCache = c.sMapCache) →
      (Except.ok (x, c0) : Except Panic _) = .ok (r, c1) →
      c1.opts = c.opts ∧ c1.data = c.data ∧ c1.strCache = c.strCache ∧
        c1.sArrCache = c.sArrCache ∧ c1.sMapCache = c.sMapCache := by
    intro x c0 h0 he
    simp only [Except.ok.injEq, Prod.mk.injEq] at he
    obtain ⟨-, rfl⟩ := he
    exact h0
  split_ifs at h with h1 h2 h3
  · exact triv _ (c.addError _) ⟨rfl, rfl, rfl, rfl, rfl⟩ h
  · split at h
    · exact triv _ _ ⟨rfl, rfl, rfl, rfl, rfl⟩ h
    · exact triv _ _ ⟨rfl, rfl, rfl, rfl, rfl⟩ h
  · split at h
    · exact triv _ _ ⟨rfl, rfl, rfl, rfl, rfl⟩ h
    · exact triv _ _ ⟨rfl, rfl, rfl, rfl, rfl⟩ h
  · split at h
    · exact triv _ _ ⟨rfl, rfl, rfl, rfl, rfl⟩ h
    · split at h
      · simp at h
      · split at h
        · exact triv _ _ ⟨rfl, rfl, rfl, rfl, rfl⟩ h
        · exact getLoop_frame _ _ _ _ _ _ h

theorem getLoop_congr (c c' : Config) (key : GoString) (ks : List GoString) :
    ∀ (item : Value),
      (Config.getLoop c key item ks).map Prod.fst =
        (Config.getLoop c' key item ks).map Prod.fst := by
  induction ks with
  | nil => intro item; rfl
  | cons k ks ih =>
    intro item
    unfold Config.getLoop
    cases hs : Config.getStep key item k with
    | next item1 => exact ih _
    | miss => rfl
    | fail err => rfl
    | failf msg => rfl
    | panic p => rfl

theorem GetValue_congr (c c' : Config) (key : GoString) (findByPath : List Bool)
    (hd : c'.data = c.data) :
    (c'.GetValue key findByPath).map Prod.fst = (c.GetValue key findByPath).map Prod.fst := by
  unfold Config.GetValue
  simp only [hd]
  split_ifs
  · rfl
  · split <;> rfl
  · split <;> rfl
  · split
    · rfl
    · split
      · rfl
      · split
        · rfl
        · exact getLoop_congr _ _ _ _ _

theorem GetValue_again (c c' : Config) (key : GoString) (findByPath : List Bool)
    (r : Value × Bool) (c1 : Config) (hd : c'.data = c.data)
    (h : c.GetValue key findByPath = .ok (r, c1)) :
    ∃ c2, c'.GetValue key findByPath = .ok (r, c2) := by
  have hc := GetValue_congr c c' key findByPath hd
  rw [h] at hc
  cases h' : c'.GetValue key findByPath with
  | error p => rw [h'] at hc; simp [Except.map] at hc
  | ok x =>
    rw [h'] at hc
    simp only [Except.map, Except.ok.injEq] at hc
    exact ⟨x.2, by rw [← hc]⟩

theorem lookup_mapSet {β : Type} (m : List (GoString × β)) (k : GoString) (v : β) :
    (mapSet m k v).lookup k = some v := by
  simp [mapSet, List.lookup]

/-! ### Boolean reads and defaults -/

theorem boolToken_true_iff (s : GoString) :
    boolToken s = some true ↔ s = "1" ∨ s = "true" ∨ s = "yes" := by
  unfold boolToken
  by_cases h0 : s = ""
  · subst h0; decide
  by_cases h1 : s = "0"
  · subst h1; decide
  by_cases h2 : s = "false"
  · subst h2; decide
  by_cases h3 : s = "no"
  · subst h3; decide
  by_cases h4 : s = "1"
  · subst h4; decide
  by_cases h5 : s = "true"
  · subst h5; decide
  by_cases h6 : s = "yes"
  · subst h6; decide
  simp [h0, h1, h2, h3, h4, h5, h6]

theorem boolToken_false_iff (s : GoString) :
    boolToken s = some false ↔ s = "" ∨ s = "0" ∨ s = "false" ∨ s = "no" := by
  unfold boolToken
  by_cases h0 : s = ""
  · subst h0; decide
  by_cases h1 : s = "0"
  · subst h1; decide
  by_cases h2 : s = "false"
  · subst h2; decide
  by_cases h3 : s = "no"
  · subst h3; decide
  by_cases h4 : s = "1"
  · subst h4; decide
  by_cases h5 : s = "true"
  · subst h5; decide
  by_cases h6 : s = "yes"
  · subst h6; decide
  simp [h0, h1, h2, h3, h4, h5, h6]

/-- C11 (as stated, refuted): `Bool` reads through `getString`, which answers
from the string cache before resolving the key. In a store with the cache
enabled whose cache holds `"no"` for `"debug"`, the key is found and resolves
to `true`, whose lower-cased string form is `"true"`, yet `Bool("debug")`
returns `false`. -/
theorem bool_read_stale_cache_counterexample :
    staleBoolStore.GetValue "debug" [] = .ok ((.bool true, true), staleBoolStore) ∧
    strings.ToLower fooRuntime.unicodeLower
      (staleBoolStore.stringForm fooRuntime (.bool true)) = "true" ∧
    staleBoolStore.Bool fooRuntime "debug" [] = .ok (false, staleBoolStore) :=
  ⟨rfl, rfl, rfl⟩

/-- C11 (amended): for every store and every key that `GetValue` finds,
provided the string cache is disabled or holds no entry for that key string,
with `s` the lower-cased string form of the resolved value: `Bool(key,
default...)` returns `true` if and only if `s` is one of `"1"`, `"true"`,
`"yes"`, and then records no error; it returns `false` for `""`, `"0"`,
`"false"`, `"no"` with no error recorded; and for every other `s` it returns
`false`, whatever default is supplied, and records one error naming `s`. -/
theorem bool_coercion_table (c : Config) (rt : Runtime) (key : GoString)
    (defVal : List Bool) (v : Value) (c1 : Config) (s : GoString)
    (hcache : c.opts.EnableCache = false ∨ c.strCache.lookup key = none)
    (hget : c.GetValue key [] = .ok ((v, true), c1))
    (hs : s = strings.ToLower rt.unicodeLower (c.stringForm rt v)) :
    ∃ b c2, c.Bool rt key defVal = .ok (b, c2) ∧
      (b = true ↔ s = "1" ∨ s = "true" ∨ s = "yes") ∧
      (s = "1" ∨ s = "true" ∨ s = "yes" → c2.errors = c.errors) ∧
      (s = "" ∨ s = "0" ∨ s = "false" ∨ s = "no" → b = false ∧ c2.errors = c.errors) ∧
      (¬ (s = "1" ∨ s = "true" ∨ s = "yes") → ¬ (s = "" ∨ s = "0" ∨ s = "false" ∨ s = "no") →
        b = false ∧ c2.errors = c.errors ++
          [some (.errorf ("the value '" ++ s ++ "' cannot be convert to bool"))]) := by
  have hc1 : c1 = c := GetValue_found_store c key [] _ c1 hget
  subst hc1
  have hmiss : c1.strCacheHit key = none := strCacheHit_none c1 key hcache
  have hgs := getString_fresh c1 rt key _ hmiss hget
  subst hs
  have ht := boolToken_true_iff (ToLower rt.unicodeLower (c1.stringForm rt v))
  have hf := boolToken_false_iff (ToLower rt.unicodeLower (c1.stringForm rt v))
  cases hb : boolToken (ToLower rt.unicodeLower (c1.stringForm rt v)) with
  | some b =>
    refine ⟨b, c1.addStrCache key (c1.stringForm rt v), by simp [Config.Bool, hgs, hb],
      ?_, ?_, ?_, ?_⟩
    · rw [← ht, hb]; simp
    · intro _; exact addStrCache_errors _ _ _
    · intro h
      have := hf.mpr h
      rw [hb] at this
      exact ⟨by simpa using this, addStrCache_errors _ _ _⟩
    · intro h1 h2
      cases b
      · exact absurd (hf.mp (by rw [hb])) h2
      · exact absurd (ht.mp (by rw [hb])) h1
  | none =>
    refine ⟨false, (c1.addStrCache key (c1.stringForm rt v)).addErrorf
      ("the value '" ++ ToLower rt.unicodeLower (c1.stringForm rt v) ++
        "' cannot be convert to bool"),
      by simp [Config.Bool, hgs, hb], ?_, ?_, ?_, ?_⟩
    · rw [← ht, hb]; simp
    · intro h; have := ht.mpr h; rw [hb] at this; cases this
    · intro h; have := hf.mpr h; rw [hb] at this; cases this
    · intro _ _
      exact ⟨rfl, by simp [Config.addErrorf, Config.addError, addStrCache_errors]⟩

/-- C11, witness: `"on"` holds `"TRUE"` in the boolean store; its lower-cased
string form is `"true"` and `Bool("on", false)` returns `true`. Also `"Yes"`
gives `true`, `"No"` and `""` give `false`, and `"maybe"` and the number `123`
give `false` with an error, whatever the default. -/
theorem bool_coercion_table_witness :
    (boolStore.opts.EnableCache = false ∨ boolStore.strCache.lookup "on" = none) ∧
    boolStore.GetValue "on" [] = .ok ((.str "TRUE", true), boolStore) ∧
    ("true" : GoString) = strings.ToLower fooRuntime.unicodeLower
      (boolStore.stringForm fooRuntime (.str "TRUE")) ∧
    boolStore.Bool fooRuntime "on" [false] = .ok (true, boolStore) ∧
    boolStore.Bool fooRuntime "agree" [] = .ok (true, boolStore) ∧
    boolStore.Bool fooRuntime "off" [true] = .ok (false, boolStore) ∧
    boolStore.Bool fooRuntime "blank" [true] = .ok (false, boolStore) ∧
    boolStore.Bool fooRuntime "mood" [true] = .ok (false,
      boolStore.addErrorf "the value 'maybe' cannot be convert to bool") ∧
    boolStore.Bool fooRuntime "age" [true] = .ok (false,
      boolStore.addErrorf "the value '123' cannot be convert to bool") ∧
    ∃ b c2, boolStore.Bool fooRuntime "on" [false] = .ok (b, c2) ∧
      (b = true ↔ ("true" : GoString) = "1" ∨ ("true" : GoString) = "true" ∨
        ("true" : GoString) = "yes") ∧
      (("true" : GoString) = "1" ∨ ("true" : GoString) = "true" ∨
        ("true" : GoString) = "yes" → c2.errors = boolStore.errors) ∧
      (("true" : GoString) = "" ∨ ("true" : GoString) = "0" ∨
        ("true" : GoString) = "false" ∨ ("true" : GoString) = "no" →
        b = false ∧ c2.errors = boolStore.errors) ∧
      (¬ (("true" : GoString) = "1" ∨ ("true" : GoString) = "true" ∨
          ("true" : GoString) = "yes") →
        ¬ (("true" : GoString) = "" ∨ ("true" : GoString) = "0" ∨
          ("true" : GoString) = "false" ∨ ("true" : GoString) = "no") →
        b = false ∧ c2.errors = boolStore.errors ++
          [some (.errorf ("the value '" ++ "true" ++ "' cannot be convert to bool"))]) :=
  ⟨Or.inl rfl, rfl, rfl, rfl, rfl, rfl, rfl, rfl, rfl,
    bool_coercion_table boolStore fooRuntime "on" [false] (.str "TRUE") boolStore "true"
      (Or.inl rfl) rfl rfl⟩

theorem getString_not_found (c : Config) (rt : Runtime) (key : GoString) (v : Value)
    (c1 : Config) (hmiss : c.strCacheHit key = none)
    (hget : c.GetValue key [] = .ok ((v, false), c1)) :
    c.getString rt key = .ok (("", false), c1) := by
  simp [Config.getString, hmiss, hget]

theorem getString_found (c : Config) (rt : Runtime) (key : GoString) (v : Value)
    (c1 : Config) (hget : c.GetValue key [] = .ok ((v, true), c1)) :
    ∃ s c2, c.getString rt key = .ok ((s, true), c2) ∧
      (c.strCacheHit key = none → s = c.stringForm rt v) := by
  have hc1 : c1 = c := GetValue_found_store c key [] _ c1 hget
  subst hc1
  cases hh : c1.strCacheHit key with
  | some s => exact ⟨s, c1, by simp [Config.getString, hh], by simp⟩
  | none => exact ⟨_, _, getString_fresh c1 rt key v hh hget, fun _ => rfl⟩

/-- C12: for every store and key, if `GetValue` reports the key as not found
and the string cache is disabled or holds no entry for it, then `String`,
`Int`, `Int64`, `Float` and `Bool` each return the supplied default when one
default is passed and the zero value of their type (`""`, `0`, `0`, `0.0`,
`false`) when none is passed, leaving the store as `GetValue` left it; and if
`GetValue` finds the key, `String` returns the string `getString` found (the
string form of the resolved value when no cache entry answers first),
whatever default is passed. -/
theorem scalar_default_on_miss (c : Config) (rt : Runtime) (key : GoString) :
    (∀ (v : Value) (c1 : Config),
      (c.opts.EnableCache = false ∨ c.strCache.lookup key = none) →
      c.GetValue key [] = .ok ((v, false), c1) →
        (∀ d, c.String rt key [d] = .ok (d, c1)) ∧ c.String rt key [] = .ok ("", c1) ∧
        (∀ d, c.Int rt key [d] = .ok (d, c1)) ∧ c.Int rt key [] = .ok (0, c1) ∧
        (∀ d, c.Int64 rt key [d] = .ok (d, c1)) ∧ c.Int64 rt key [] = .ok (0, c1) ∧
        (∀ d, c.Float rt key [d] = .ok (d, c1)) ∧
        c.Float rt key [] = .ok (GoFloat.zero, c1) ∧
        (∀ d, c.Bool rt key [d] = .ok (d, c1)) ∧ c.Bool rt key [] = .ok (false, c1)) ∧
    (∀ (v : Value) (c1 : Config) (defVal : List GoString),
      c.GetValue key [] = .ok ((v, true), c1) →
        ∃ s c2, c.getString rt key = .ok ((s, true), c2) ∧
          c.String rt key defVal = .ok (s, c2) ∧
          (c.opts.EnableCache = false ∨ c.strCache.lookup key = none →
            s = c.stringForm rt v)) := by
  constructor
  · intro v c1 hcache hget
    have hmiss : c.strCacheHit key = none := strCacheHit_none c key hcache
    have hgs := getString_not_found c rt key v c1 hmiss hget
    refine ⟨?_, ?_, ?_, ?_, ?_, ?_, ?_, ?_, ?_, ?_⟩ <;>
      simp [Config.String, Config.Int, Config.Int64, Config.Float, Config.Bool, hgs]
  · intro v c1 defVal hget
    obtain ⟨s, c2, hgs, hform⟩ := getString_found c rt key v c1 hget
    exact ⟨s, c2, hgs, by simp [Config.String, hgs],
      fun hcache => hform (strCacheHit_none c key hcache)⟩

/-- C12, witness: `"notExist"` is not found in the test store; `String` with
the default `"defVal"` returns it and `Int` with 34 returns 34, while without
a default they return `""` and `0`; and `"name"` is found, so `String` returns
`"app"` and not the default. -/
theorem scalar_default_on_miss_witness :
    (testStore.opts.EnableCache = false ∨ testStore.strCache.lookup "notExist" = none) ∧
    testStore.GetValue "notExist" [] = .ok ((.nil, false), testStore) ∧
    testStore.String fooRuntime "notExist" ["defVal"] = .ok ("defVal", testStore) ∧
    testStore.String fooRuntime "notExist" [] = .ok ("", testStore) ∧
    testStore.Int fooRuntime "notExist" [34] = .ok (34, testStore) ∧
    testStore.Int fooRuntime "notExist" [] = .ok (0, testStore) ∧
    testStore.Float fooRuntime "notExist" [] = .ok (GoFloat.zero, testStore) ∧
    testStore.Bool fooRuntime "notExist" [true] = .ok (true, testStore) ∧
    testStore.GetValue "name" [] = .ok ((.str "app", true), testStore) ∧
    testStore.String fooRuntime "name" ["defVal"] = .ok ("app", testStore) :=
  ⟨Or.inl rfl, rfl,
    ((scalar_default_on_miss testStore fooRuntime "notExist").1 .nil testStore
      (Or.inl rfl) rfl).1 "defVal",
    ((scalar_default_on_miss testStore fooRuntime "notExist").1 .nil testStore
      (Or.inl rfl) rfl).2.1,
    rfl, rfl, rfl, rfl, rfl, rfl⟩

/-! ### Slice reads -/

theorem sArrCacheHit_none (c : Config) (key : GoString)
    (h : c.opts.EnableCache = false ∨ c.sArrCache.lookup key = none) :
    c.sArrCacheHit key = none := by
  unfold Config.sArrCacheHit
  rcases h with h | h
  · simp [h]
  · simp [h]

theorem addSArrCache_errors (c : Config) (key : GoString) (arr : List GoString) :
    (c.addSArrCache key arr).errors = c.errors := by
  unfold Config.addSArrCache
  split_ifs <;> rfl

/-- C13 (as stated, refuted): `Strings` answers from the string-slice cache
before resolving the key. In a store with the cache enabled whose cache holds
`["old"]` for `"names"`, the key resolves to the native string sequence
`["a", "b"]`, yet `Strings("names")` returns `["old"]`. -/
theorem strings_stale_cache_counterexample :
    staleArrStore.GetValue "names" [] =
      .ok ((.strSlice ["a", "b"], true), staleArrStore) ∧
    staleArrStore.Strings fooRuntime "names" = .ok (["old"], staleArrStore) :=
  ⟨rfl, rfl⟩

/-- C13 (amended): for every store and key that `GetValue` resolves, provided
the string-slice cache is disabled or holds no entry for that key string: if
the value is a native string sequence `s`, `Strings(key)` returns `s`
unchanged; if it is a heterogeneous sequence `h`, `Strings(key)` returns a
list of the same length whose `i`-th element is the `%v` text of `h[i]`; in
both cases no error is recorded. If it is of any other shape, `Strings(key)`
returns the empty list and the store is left with one more error, the type
error, and with its caches as they were. -/
theorem strings_coercion (c : Config) (rt : Runtime) (key : GoString) (v : Value)
    (c1 : Config)
    (hcache : c.opts.EnableCache = false ∨ c.sArrCache.lookup key = none)
    (hget : c.GetValue key [] = .ok ((v, true), c1)) :
    (∀ xs, v = .strSlice xs →
      ∃ c2, c.Strings rt key = .ok (xs, c2) ∧ c2.errors = c.errors) ∧
    (∀ h, v = .anySlice h →
      ∃ arr c2, c.Strings rt key = .ok (arr, c2) ∧ arr.length = h.length ∧
        (∀ (i : Nat) (x : Value), h[i]? = some x → arr[i]? = some (Sprint rt x)) ∧
        c2.errors = c.errors) ∧
    (v.isStringsShape = false →
      c.Strings rt key = .ok ([], c.addErrorf
        ("value cannot be convert to []string, key is '" ++ key ++ "'")) ∧
      (c.addErrorf ("value cannot be convert to []string, key is '" ++ key ++ "'")).sArrCache
        = c.sArrCache) := by
  have hc1 : c1 = c := GetValue_found_store c key [] _ c1 hget
  subst hc1
  have hmiss : c1.sArrCacheHit key = none := sArrCacheHit_none c1 key hcache
  refine ⟨?_, ?_, ?_⟩
  · intro xs hv
    subst hv
    exact ⟨c1.addSArrCache key xs, by simp [Config.Strings, hmiss, hget],
      addSArrCache_errors _ _ _⟩
  · intro h hv
    subst hv
    refine ⟨h.map (Sprint rt), c1.addSArrCache key (h.map (Sprint rt)),
      by simp [Config.Strings, hmiss, hget], by simp, ?_, addSArrCache_errors _ _ _⟩
    intro i x hx
    simp [List.getElem?_map, hx]
  · intro hshape
    refine ⟨?_, rfl⟩
    cases v <;> simp [Value.isStringsShape] at hshape <;>
      simp [Config.Strings, hmiss, hget]

/-- C13, witness: on the store built by `LoadData`, `"yArr"` resolves to the
heterogeneous sequence `[23, 45, "val", {...}]`; `Strings("yArr")` has its four
elements formatted in order. And `"newSArr"` comes back unchanged, while the
`[]int` under `"newIArr"` gives the empty list and a type error. -/
theorem strings_coercion_witness :
    (loadedStore.opts.EnableCache = false ∨ loadedStore.sArrCache.lookup "yArr" = none) ∧
    loadedStore.Strings fooRuntime "yArr" = .ok (["23", "45", "val", ""], loadedStore) ∧
    loadedStore.Strings fooRuntime "newSArr" = .ok (["a", "b"], loadedStore) ∧
    loadedStore.Strings fooRuntime "newIArr" = .ok ([], loadedStore.addErrorf
      "value cannot be convert to []string, key is 'newIArr'") ∧
    ∃ arr c2, loadedStore.Strings fooRuntime "yArr" = .ok (arr, c2) ∧
      arr.length = [Value.int 23, .int 45, .str "val", .mapSI [("k4", .str "v4")]].length ∧
      (∀ (i : Nat) (x : Value),
        [Value.int 23, .int 45, .str "val", .mapSI [("k4", .str "v4")]][i]? = some x →
        arr[i]? = some (Sprint fooRuntime x)) ∧
      c2.errors = loadedStore.errors :=
  ⟨Or.inl rfl, rfl, rfl, rfl,
    (strings_coercion loadedStore fooRuntime "yArr" _ loadedStore (Or.inl rfl) rfl).2.1
      _ rfl⟩

/-- C14 (fails on the code): on the first element that does not parse, the loop
of `Ints` records the error and returns, and what it returns is the named
result `arr` with the integers appended so far. On `{"h": [1, "x"]}` the call
`Ints("h")` returns `[1]`, not the empty list; when every element parses
(`[1, "22", 3]`) it returns the integers in order. -/
theorem ints_returns_parsed_initial_segment :
    mixedSeqStore.GetValue "h" [] =
      .ok ((.anySlice [.int 1, .str "x"], true), mixedSeqStore) ∧
    mixedSeqStore.Ints fooRuntime "h" =
      .ok ([1], mixedSeqStore.addError (some (.numError "x" .ErrSyntax))) ∧
    mixedSeqStore.Ints fooRuntime "g" = .ok ([1, 22, 3], mixedSeqStore) :=
  ⟨rfl, rfl, rfl⟩

/-! ### The caches -/

theorem length_pos_of_lookup {β : Type} (m : List (GoString × β)) (k : GoString) (v : β)
    (h : m.lookup k = some v) : 0 < m.length := by
  cases m with
  | nil => simp at h
  | cons e es => simp

theorem strCacheHit_of_lookup (c : Config) (key s : GoString)
    (hen : c.opts.EnableCache = true) (h : c.strCache.lookup key = some s) :
    c.strCacheHit key = some s := by
  have := length_pos_of_lookup _ _ _ h
  simp [Config.strCacheHit, hen, h, this]

theorem sArrCacheHit_of_lookup (c : Config) (key : GoString) (arr : List GoString)
    (hen : c.opts.EnableCache = true) (h : c.sArrCache.lookup key = some arr) :
    c.sArrCacheHit key = some arr := by
  have := length_pos_of_lookup _ _ _ h
  simp [Config.sArrCacheHit, hen, h, this]

theorem lookup_of_strCacheHit (c : Config) (key s : GoString)
    (h : c.strCacheHit key = some s) : c.strCache.lookup key = some s := by
  unfold Config.strCacheHit at h
  split_ifs at h
  exact h

theorem getString_found_cached (c : Config) (rt : Runtime) (key s : GoString)
    (c1 : Config) (hen : c.opts.EnableCache = true)
    (h : c.getString rt key = .ok ((s, true), c1)) :
    c1.opts.EnableCache = true ∧ c1.strCache.lookup key = some s := by
  unfold Config.getString at h
  cases hh : c.strCacheHit key with
  | some s' =>
    rw [hh] at h
    simp only [Except.ok.injEq, Prod.mk.injEq, and_true] at h
    obtain ⟨rfl, rfl⟩ := h
    exact ⟨hen, lookup_of_strCacheHit _ _ _ hh⟩
  | none =>
    rw [hh] at h
    simp only at h
    cases hg : c.GetValue key [] with
    | error p => rw [hg] at h; simp at h
    | ok r =>
      obtain ⟨⟨v, ok⟩, c'⟩ := r
      rw [hg] at h
      cases ok with
      | false => simp at h
      | true =>
        have hc' : c' = c := GetValue_found_store c key [] _ c' hg
        subst hc'
        simp only [Bool.not_true, Bool.false_eq_true, if_false, Except.ok.injEq,
          Prod.mk.injEq, and_true] at h
        obtain ⟨rfl, rfl⟩ := h
        simp [Config.addStrCache, hen, lookup_mapSet]

theorem Strings_of_cached (c : Config) (rt : Runtime) (key : GoString)
    (arr : List GoString) (hen : c.opts.EnableCache = true)
    (h : c.sArrCache.lookup key = some arr) : c.Strings rt key = .ok (arr, c) := by
  simp [Config.Strings, sArrCacheHit_of_lookup c key arr hen h]

/-- C16 (as stated, refuted): `Int` reads through `getString`, which caches the
string it found. On `cacheOnStore`, `Int("age")` returns 1 and leaves `"1"` in
the string cache; after the root's `age` is changed from 1 to 2, with no
`String` call and no cache clear in between, `GetValue("age")` returns 2 but
`Int("age")` and `Int64("age")` still return 1, the coercion of the old
value. -/
theorem int_read_is_cached_counterexample :
    cacheOnStore.opts.EnableCache = true ∧
    cacheOnStore.Int fooRuntime "age" [] = .ok (1, ageCachedStore) ∧
    ageCachedChanged.GetValue "age" [] = .ok ((.int 2, true), ageCachedChanged) ∧
    ageCachedChanged.Int fooRuntime "age" [] = .ok (1, ageCachedChanged) ∧
    ageCachedChanged.Int64 fooRuntime "age" [] = .ok (1, ageCachedChanged) :=
  ⟨rfl, rfl, rfl, rfl, rfl⟩

/-- C16 (amended): numeric and boolean reads go through the string cache. On a
store with `EnableCache` set, for every key, once a scalar getter (`Int`,
`Int64`, `Float`, `Bool` or `String`) has found the key, with `s` the string
its `getString` returned, every later `Int(key)`, `Int64(key)`, `Float(key)`
and `Bool(key)` returns the coercion of `s`, the string cached at the first
read, whatever the root holds at that key by then, as long as the cache entry
for the key is the one the first call left; the first `Int(key)` itself
returns the same coercion. -/
theorem numeric_reads_use_string_cache (c : Config) (rt : Runtime) (key s : GoString)
    (c1 : Config) (hen : c.opts.EnableCache = true)
    (hgs : c.getString rt key = .ok ((s, true), c1)) :
    (∀ d, ∃ c3, c.Int rt key d = .ok ((strconv.Atoi s).1, c3)) ∧
    ∀ (c2 : Config) (rt2 : Runtime), c2.opts.EnableCache = true →
      c2.strCache.lookup key = c1.strCache.lookup key →
      (∀ d, ∃ c3, c2.Int rt2 key d = .ok ((strconv.Atoi s).1, c3)) ∧
      (∀ d, ∃ c3, c2.Int64 rt2 key d = .ok ((strconv.ParseInt s).1, c3)) ∧
      (∀ d, ∃ c3, c2.Float rt2 key d = .ok ((rt2.ParseFloat s).1, c3)) ∧
      (∀ d, ∃ c3, c2.Bool rt2 key d =
        .ok ((boolToken (strings.ToLower rt2.unicodeLower s)).getD false, c3)) := by
  have hint : ∀ (c0 : Config) (rt0 : Runtime) (c0' : Config),
      c0.getString rt0 key = .ok ((s, true), c0') →
      ∀ d, ∃ c3, c0.Int rt0 key d = .ok ((Atoi s).1, c3) := by
    intro c0 rt0 c0' h0 d
    rcases hp : Atoi s with ⟨r, _ | e⟩
    · exact ⟨_, by simp [Config.Int, h0, hp]; rfl⟩
    · exact ⟨_, by simp [Config.Int, h0, hp]; rfl⟩
  refine ⟨hint c rt c1 hgs, ?_⟩
  intro c2 rt2 hen2 hlk
  have hc := (getString_found_cached c rt key s c1 hen hgs).2
  have hgs2 : c2.getString rt2 key = .ok ((s, true), c2) := by
    simp [Config.getString, strCacheHit_of_lookup c2 key s hen2 (hlk.trans hc)]
  refine ⟨hint c2 rt2 c2 hgs2, ?_, ?_, ?_⟩
  · intro d
    rcases hp : ParseInt s with ⟨r, _ | e⟩
    · exact ⟨_, by simp [Config.Int64, hgs2, hp]; rfl⟩
    · exact ⟨_, by simp [Config.Int64, hgs2, hp]; rfl⟩
  · intro d
    rcases hp : rt2.ParseFloat s with ⟨r, _ | e⟩
    · exact ⟨_, by simp [Config.Float, hgs2, hp]; rfl⟩
    · exact ⟨_, by simp [Config.Float, hgs2, hp]; rfl⟩
  · intro d
    cases hp : boolToken (ToLower rt2.unicodeLower s) with
    | none => exact ⟨_, by simp [Config.Bool, hgs2, hp]; rfl⟩
    | some b => exact ⟨_, by simp [Config.Bool, hgs2, hp]; rfl⟩

/-- C16, witness: on `cacheOnStore` the first read of `"age"` finds `"1"`;
after the root is changed so that `age` is 2, `Int("age")` on the changed
store is still `(Atoi "1").1 = 1`. -/
theorem numeric_reads_use_string_cache_witness :
    cacheOnStore.opts.EnableCache = true ∧
    cacheOnStore.getString fooRuntime "age" = .ok (("1", true), ageCachedStore) ∧
    (strconv.Atoi "1").1 = 1 ∧
    ageCachedChanged.data.lookup "age" = some (.int 2) ∧
    ∃ c3, ageCachedChanged.Int fooRuntime "age" [] = .ok ((strconv.Atoi "1").1, c3) :=
  ⟨rfl, rfl, rfl, rfl,
    ((numeric_reads_use_string_cache cacheOnStore fooRuntime "age" "1" ageCachedStore
      rfl rfl).2 ageCachedChanged fooRuntime rfl rfl).1 []⟩

theorem strCacheHit_congr (c c' : Config) (key : GoString)
    (ho : c'.opts = c.opts) (hs : c'.strCache = c.strCache) :
    c'.strCacheHit key = c.strCacheHit key := by
  simp [Config.strCacheHit, ho, hs]

theorem sArrCacheHit_congr (c c' : Config) (key : GoString)
    (ho : c'.opts = c.opts) (hs : c'.sArrCache = c.sArrCache) :
    c'.sArrCacheHit key = c.sArrCacheHit key := by
  simp [Config.sArrCacheHit, ho, hs]

theorem getString_again (c : Config) (rt : Runtime) (key s : GoString) (ok : Bool)
    (c1 : Config) (h : c.getString rt key = .ok ((s, ok), c1)) :
    ∃ c2, c1.getString rt key = .ok ((s, ok), c2) := by
  unfold Config.getString at h
  cases hh : c.strCacheHit key with
  | some s' =>
    rw [hh] at h
    simp only [Except.ok.injEq, Prod.mk.injEq] at h
    obtain ⟨⟨rfl, rfl⟩, rfl⟩ := h
    exact ⟨c, by simp [Config.getString, hh]⟩
  | none =>
    rw [hh] at h
    simp only at h
    cases hg : c.GetValue key [] with
    | error p => rw [hg] at h; simp at h
    | ok r =>
      obtain ⟨⟨v, found⟩, c'⟩ := r
      rw [hg] at h
      cases found with
      | false =>
        simp only [Bool.not_false, if_true, Except.ok.injEq, Prod.mk.injEq] at h
        obtain ⟨⟨rfl, rfl⟩, rfl⟩ := h
        obtain ⟨ho, hd, hsc, -, -⟩ := GetValue_frame c key [] _ _ hg
        obtain ⟨c2, hg2⟩ := GetValue_again c c' key [] _ _ hd hg
        have hh2 : c'.strCacheHit key = none := by
          rw [strCacheHit_congr c c' key ho hsc]; exact hh
        exact ⟨c2, by simp [Config.getString, hh2, hg2]⟩
      | true =>
        have hc' : c' = c := GetValue_found_store c key [] _ c' hg
        subst hc'
        simp only [Bool.not_true, Bool.false_eq_true, if_false, Except.ok.injEq,
          Prod.mk.injEq] at h
        obtain ⟨⟨rfl, rfl⟩, rfl⟩ := h
        by_cases hen : c'.opts.EnableCache = true
        · have hlk : (c'.addStrCache key (c'.stringForm rt v)).strCache.lookup key =
              some (c'.stringForm rt v) := by
            simp [Config.addStrCache, hen, lookup_mapSet]
          have hen2 : (c'.addStrCache key (c'.stringForm rt v)).opts.EnableCache = true := by
            simp [Config.addStrCache, hen]
          exact ⟨c'.addStrCache key (c'.stringForm rt v), by
            simp only [Config.getString, strCacheHit_of_lookup _ key _ hen2 hlk]⟩
        · have hsame : c'.addStrCache key (c'.stringForm rt v) = c' := by
            simp [Config.addStrCache, hen]
          rw [hsame]
          exact ⟨c', by simp [Config.getString, hh, hg, hsame]⟩

theorem Strings_again (c : Config) (rt : Runtime) (key : GoString)
    (arr : List GoString) (c1 : Config) (h : c.Strings rt key = .ok (arr, c1)) :
    ∃ c2, c1.Strings rt key = .ok (arr, c2) := by
  unfold Config.Strings at h
  cases hh : c.sArrCacheHit key with
  | some a =>
    rw [hh] at h
    simp only [Except.ok.injEq, Prod.mk.injEq] at h
    obtain ⟨rfl, rfl⟩ := h
    exact ⟨c, by simp [Config.Strings, hh]⟩
  | none =>
    rw [hh] at h
    simp only at h
    cases hg : c.GetValue key [] with
    | error p => rw [hg] at h; simp at h
    | ok r =>
      obtain ⟨⟨v, found⟩, c'⟩ := r
      rw [hg] at h
      cases found with
      | false =>
        simp only [Bool.not_false, if_true, Except.ok.injEq, Prod.mk.injEq] at h
        obtain ⟨rfl, rfl⟩ := h
        obtain ⟨ho, hd, -, hsc, -⟩ := GetValue_frame c key [] _ _ hg
        obtain ⟨c2, hg2⟩ := GetValue_again c c' key [] _ _ hd hg
        have hh2 : c'.sArrCacheHit key = none := by
          rw [sArrCacheHit_congr c c' key ho hsc]; exact hh
        exact ⟨c2, by simp [Config.Strings, hh2, hg2]⟩
      | true =>
        have hc' : c' = c := GetValue_found_store c key [] _ c' hg
        subst hc'
        simp only [Bool.not_true, Bool.false_eq_true, if_false] at h
        have cached : ∀ (xs : List GoString),
            ∃ c2, (c'.addSArrCache key xs).Strings rt key = .ok (xs, c2) ∨
              (c'.addSArrCache key xs = c') := by
          intro xs
          by_cases hen : c'.opts.EnableCache = true
          · have hlk : (c'.addSArrCache key xs).sArrCache.lookup key = some xs := by
              simp [Config.addSArrCache, hen, lookup_mapSet]
            have hen2 : (c'.addSArrCache key xs).opts.EnableCache = true := by
              simp [Config.addSArrCache, hen]
            exact ⟨_, Or.inl (Strings_of_cached _ rt key xs hen2 hlk)⟩
          · exact ⟨c', Or.inr (by simp [Config.addSArrCache, hen])⟩
        cases v with
        | strSlice xs =>
          simp only [Except.ok.injEq, Prod.mk.injEq] at h
          obtain ⟨rfl, rfl⟩ := h
          obtain ⟨c2, hc2 | hc2⟩ := cached xs
          · exact ⟨c2, hc2⟩
          · rw [hc2]
            exact ⟨c', by simp [Config.Strings, hh, hg, hc2]⟩
        | anySlice xs =>
          simp only [Except.ok.injEq, Prod.mk.injEq] at h
          obtain ⟨rfl, rfl⟩ := h
          obtain ⟨c2, hc2 | hc2⟩ := cached (xs.map (Sprint rt))
          · exact ⟨c2, hc2⟩
          · rw [hc2]
            exact ⟨c', by simp [Config.Strings, hh, hg, hc2]⟩
        | nil | bool _ | int _ | float _ | str _ | mapSS _ | mapSInt _ | mapSI _ | mapII _
          | intSlice _ =>
          simp only [Except.ok.injEq, Prod.mk.injEq] at h
          obtain ⟨rfl, rfl⟩ := h
          obtain ⟨c2, hg2⟩ := GetValue_again c'
            (c'.addErrorf ("value cannot be convert to []string, key is '" ++ key ++ "'"))
            key [] _ _ rfl hg
          have hh2 : (c'.addErrorf
              ("value cannot be convert to []string, key is '" ++ key ++ "'")).sArrCacheHit key
              = none :=
            (sArrCacheHit_congr c' (c'.addErrorf
              ("value cannot be convert to []string, key is '" ++ key ++ "'")) key
              rfl rfl).trans hh
          exact ⟨c2.addErrorf
            ("value cannot be convert to []string, key is '" ++ key ++ "'"),
            by simp [Config.Strings, hh2, hg2]⟩

/-- C17: for every store state (cache enabled or not, caches empty or
populated), every key and a fixed environment: if `GetValue(key)` returns a
value and a found flag, calling it again on the store it left returns the
same value and the same flag; likewise `getString`, hence `String(key)` with
the same default, and `Strings(key)`, also when the first call wrote a cache
entry. -/
theorem read_idempotent (c : Config) (rt : Runtime) (key : GoString) :
    (∀ (findByPath : List Bool) (v : Value) (ok : Bool) (c1 : Config),
      c.GetValue key findByPath = .ok ((v, ok), c1) →
        ∃ c2, c1.GetValue key findByPath = .ok ((v, ok), c2)) ∧
    (∀ (s : GoString) (ok : Bool) (c1 : Config),
      c.getString rt key = .ok ((s, ok), c1) →
        ∃ c2, c1.getString rt key = .ok ((s, ok), c2)) ∧
    (∀ (defVal : List GoString) (s : GoString) (c1 : Config),
      c.String rt key defVal = .ok (s, c1) →
        ∃ c2, c1.String rt key defVal = .ok (s, c2)) ∧
    (∀ (arr : List GoString) (c1 : Config),
      c.Strings rt key = .ok (arr, c1) →
        ∃ c2, c1.Strings rt key = .ok (arr, c2)) := by
  refine ⟨?_, ?_, ?_, ?_⟩
  · intro findByPath v ok c1 h
    exact GetValue_again c c1 key findByPath _ _
      (GetValue_frame c key findByPath _ _ h).2.1 h
  · intro s ok c1 h
    exact getString_again c rt key s ok c1 h
  · intro defVal s c1 h
    unfold Config.String at h
    cases hg : c.getString rt key with
    | error p => rw [hg] at h; simp at h
    | ok r =>
      obtain ⟨⟨s', found⟩, c'⟩ := r
      rw [hg] at h
      obtain ⟨c2, hg2⟩ := getString_again c rt key s' found c' hg
      simp only at h
      split_ifs at h with hd
      · simp only [Except.ok.injEq, Prod.mk.injEq] at h
        obtain ⟨rfl, rfl⟩ := h
        exact ⟨c2, by simp [Config.String, hg2, hd]⟩
      · simp only [Except.ok.injEq, Prod.mk.injEq] at h
        obtain ⟨rfl, rfl⟩ := h
        exact ⟨c2, by simp [Config.String, hg2, hd]⟩
  · intro arr c1 h
    exact Strings_again c rt key arr c1 h

/-- C17, witness: on `cacheOnStore` the first `String("name")` returns `"app"`
and writes the cache; the second call, on the store the first one left,
returns `"app"` again. The same for `GetValue("age")` and `Strings("names")`. -/
theorem read_idempotent_witness :
    cacheOnStore.String fooRuntime "name" [] = .ok ("app", nameCachedStore) ∧
    nameCachedStore.String fooRuntime "name" [] = .ok ("app", nameCachedStore) ∧
    cacheOnStore.GetValue "age" [] = .ok ((.int 1, true), cacheOnStore) ∧
    (∃ c2, nameCachedStore.String fooRuntime "name" [] = .ok ("app", c2)) ∧
    (∃ c2, cacheOnStore.GetValue "age" [] = .ok ((.int 1, true), c2)) :=
  ⟨rfl, rfl, rfl,
    (read_idempotent cacheOnStore fooRuntime "name").2.2.1 [] "app" nameCachedStore rfl,
    (read_idempotent cacheOnStore fooRuntime "age").1 [] (.int 1) true cacheOnStore rfl⟩

/-! ### Environment interpolation -/

theorem takeWhile_append_stop (p : Char → Bool) (l r : List Char) (x : Char)
    (hl : ∀ c ∈ l, p c = true) (hx : p x = false) :
    (l ++ x :: r).takeWhile p = l ∧ (l ++ x :: r).dropWhile p = x :: r := by
  induction l with
  | nil => simp [List.takeWhile, List.dropWhile, hx]
  | cons a as ih =>
    have ha : p a = true := hl a (by simp)
    have := ih (fun c hc => hl c (by simp [hc]))
    simp [List.takeWhile, List.dropWhile, ha, this.1, this.2]

theorem findAllTokens_skip (cs : List Char) :
    ∀ n, cs.length ≤ n → findAllTokens cs n = [] := by
  induction cs with
  | nil => intro n _; cases n <;> rfl
  | cons c cs ih =>
    intro n hn
    cases n with
    | zero => simp at hn
    | succ n =>
      simp only [findAllTokens]
      exact ih n (by simpa using hn)

theorem replaceAll_skip (pairs : List (List Char × List Char)) (cs : List Char) :
    ∀ n, cs.length ≤ n → replaceAll pairs cs n = [] := by
  induction cs with
  | nil => intro n _; cases n <;> rfl
  | cons c cs ih =>
    intro n hn
    cases n with
    | zero => simp at hn
    | succ n =>
      simp only [replaceAll]
      exact ih n (by simpa using hn)

theorem isPrefixOf_self (l : List Char) : l.isPrefixOf l = true := by
  induction l with
  | nil => rfl
  | cons a as ih => simp [List.isPrefixOf, ih]

theorem matchToken_token (content : List Char) (hne : content ≠ [])
    (hall : ∀ c ∈ content, isTokenChar c = true) :
    matchToken ('$' :: '\x7b' :: (content ++ ['\x7d'])) =
      some ('$' :: '\x7b' :: (content ++ ['\x7d'])) := by
  obtain ⟨b, body, rfl⟩ := List.exists_cons_of_ne_nil hne
  have h := takeWhile_append_stop isTokenChar (b :: body) [] '\x7d' hall (by decide)
  simp only [matchToken, h.1, h.2]
  simp

theorem parseEnvValue_token (c : Config) (rt : Runtime) (content : List Char)
    (hne : content ≠ []) (hall : ∀ ch ∈ content, isTokenChar ch = true) :
    c.parseEnvValue rt ⟨'$' :: '\x7b' :: (content ++ ['\x7d'])⟩ =
      ⟨(envPair rt ('$' :: '\x7b' :: (content ++ ['\x7d']))).2⟩ := by
  have hcont : Contains ⟨'$' :: '\x7b' :: (content ++ ['\x7d'])⟩ "$\x7b" = true := by
    show containsAt ['$', '\x7b'] ('$' :: '\x7b' :: (content ++ ['\x7d'])) = true
    simp [containsAt, List.isPrefixOf]
  have hfind : findAllTokens ('$' :: '\x7b' :: (content ++ ['\x7d'])) 0 =
      ['$' :: '\x7b' :: (content ++ ['\x7d'])] := by
    simp only [findAllTokens, matchToken_token content hne hall]
    rw [findAllTokens_skip _ _ (by simp)]
  have hfst : (envPair rt ('$' :: '\x7b' :: (content ++ ['\x7d']))).1 =
      '$' :: '\x7b' :: (content ++ ['\x7d']) := rfl
  unfold Config.parseEnvValue
  simp only [hcont, hfind, Bool.not_true, Bool.false_eq_true, if_false, List.isEmpty_cons,
    List.map_cons, List.map_nil]
  congr 1
  simp only [replaceAll, List.find?, hfst, isPrefixOf_self]
  rw [replaceAll_skip _ _ _ (by simp [hfst])]
  simp

theorem isTokenChar_of_isNameChar (ch : Char) (h : isNameChar ch = true) :
    isTokenChar ch = true := by
  simp only [isNameChar, Bool.or_eq_true] at h
  simp only [isTokenChar, Bool.or_eq_true]
  rcases h with ((h | h) | h) | h
  · exact Or.inl (Or.inl (Or.inl (Or.inl h)))
  · exact Or.inl (Or.inl (Or.inl (Or.inr h)))
  · exact Or.inl (Or.inl (Or.inr h))
  · exact Or.inr h

theorem not_pipe_of_isNameChar (l : List Char) (h : ∀ ch ∈ l, isNameChar ch = true) :
    '|' ∉ l := by
  intro hm
  exact absurd (h _ hm) (by decide)

theorem envPair_plain (rt : Runtime) (name : List Char) (hp : '|' ∉ name) :
    (envPair rt ('$' :: '\x7b' :: (name ++ ['\x7d']))).2 =
      if rt.Getenv ⟨name⟩ == "" then '$' :: '\x7b' :: (name ++ ['\x7d'])
      else (rt.Getenv ⟨name⟩).data := by
  have hdrop : (List.drop 2 ('$' :: '\x7b' :: (name ++ ['\x7d']))).dropLast = name := by
    simp
  have hc : name.contains '|' = false := by
    simpa using hp
  simp only [envPair, hdrop, splitPipe, hc, Bool.false_eq_true, if_false]

theorem envPair_default (rt : Runtime) (name dflt : List Char) (hp : '|' ∉ name) :
    (envPair rt ('$' :: '\x7b' :: ((name ++ '|' :: dflt) ++ ['\x7d']))).2 =
      if rt.Getenv (strings.TrimSpace ⟨name⟩) == "" then (strings.TrimSpace ⟨dflt⟩).data
      else (rt.Getenv (strings.TrimSpace ⟨name⟩)).data := by
  have hdrop : (List.drop 2 ('$' :: '\x7b' :: ((name ++ '|' :: dflt) ++ ['\x7d']))).dropLast
      = name ++ '|' :: dflt := by
    show ((name ++ '|' :: dflt) ++ ['\x7d']).dropLast = name ++ '|' :: dflt
    exact List.dropLast_concat
  have hc : (name ++ '|' :: dflt).contains '|' = true := by
    simp
  have hs := takeWhile_append_stop (fun ch => ch != '|') name dflt '|'
    (by
      intro ch hch
      simp only [bne_iff_ne, ne_eq]
      rintro rfl
      exact hp hch)
    (by simp)
  simp only [envPair, hdrop, splitPipe, hc, if_true, hs.1, hs.2, List.drop_one, List.tail_cons]

/-- C18 (as stated, refuted): whether the name is trimmed depends on the token
having a default. With only `FOO=bar` set, `"${ FOO |x}"` has the name `" FOO "`,
for which the environment is empty, and the trimmed default `"x"`, yet it
interpolates to `"bar"`; and `"${ FOO }"` stays as it is although `FOO` is
set. So neither the name as written nor the trimmed name is what
`parseEnvValue` looks up in both forms. -/
theorem parseEnvValue_name_spaces_counterexample :
    fooRuntime.Getenv " FOO " = "" ∧ fooRuntime.Getenv "FOO" = "bar" ∧
    strings.TrimSpace "x" = "x" ∧
    testStore.parseEnvValue fooRuntime "$\x7b FOO |x\x7d" = "bar" ∧
    testStore.parseEnvValue fooRuntime "$\x7b FOO \x7d" = "$\x7b FOO \x7d" :=
  ⟨by decide, by decide, by decide, by decide, by decide⟩

/-- C18 (amended): with the environment a function from names to strings, for
every name and default made of word characters, dashes and spaces, the name
having no leading or trailing white space: `parseEnvValue` on the one-token
string `${NAME}` (NAME not empty) returns `env(NAME)` when that is not empty
and the whole token text otherwise; on `${NAME|default}` it returns
`env(NAME)` when that is not empty and the white-space-trimmed default
otherwise; and every string that does not contain `${` is returned
unchanged. -/
theorem parseEnvValue_single_token (c : Config) (rt : Runtime) (name dflt : GoString)
    (hname : ∀ ch ∈ name.data, isNameChar ch = true)
    (hdflt : ∀ ch ∈ dflt.data, isNameChar ch = true)
    (htrim : strings.TrimSpace name = name) :
    (name ≠ "" →
      c.parseEnvValue rt ("$\x7b" ++ name ++ "\x7d") =
        if rt.Getenv name ≠ "" then rt.Getenv name else "$\x7b" ++ name ++ "\x7d") ∧
    (c.parseEnvValue rt ("$\x7b" ++ name ++ "|" ++ dflt ++ "\x7d") =
      if rt.Getenv name ≠ "" then rt.Getenv name else strings.TrimSpace dflt) ∧
    (∀ s, strings.Contains s "$\x7b" = false → c.parseEnvValue rt s = s) := by
  have hp : '|' ∉ name.data := not_pipe_of_isNameChar _ hname
  refine ⟨?_, ?_, ?_⟩
  · intro hne
    have e : ("$\x7b" ++ name ++ "\x7d" : GoString) =
        ⟨'$' :: '\x7b' :: (name.data ++ ['\x7d'])⟩ := by
      apply String.ext
      simp [String.data_append]
    have hne' : name.data ≠ [] := fun h => hne (String.ext h)
    rw [e, parseEnvValue_token c rt name.data hne'
      (fun ch hch => isTokenChar_of_isNameChar ch (hname ch hch)), envPair_plain rt _ hp]
    by_cases hg : rt.Getenv name = ""
    · simp [hg]
    · simp [hg]
  · have e : ("$\x7b" ++ name ++ "|" ++ dflt ++ "\x7d" : GoString) =
        ⟨'$' :: '\x7b' :: ((name.data ++ '|' :: dflt.data) ++ ['\x7d'])⟩ := by
      apply String.ext
      simp [String.data_append]
    have hall : ∀ ch ∈ name.data ++ '|' :: dflt.data, isTokenChar ch = true := by
      intro ch hch
      rcases List.mem_append.mp hch with h | h
      · exact isTokenChar_of_isNameChar ch (hname ch h)
      · rcases List.mem_cons.mp h with rfl | h
        · decide
        · exact isTokenChar_of_isNameChar ch (hdflt ch h)
    have htr : strings.TrimSpace ⟨name.data⟩ = name := htrim
    rw [e, parseEnvValue_token c rt _ (by simp) hall, envPair_default rt _ _ hp, htr]
    by_cases hg : rt.Getenv name = ""
    · simp [hg]
    · simp [hg]
  · intro s hs
    simp [Config.parseEnvValue, hs]

/-- C18, witness: with `FOO=bar`, `"${FOO}"` gives `"bar"`, `"${MISSING|def}"`
gives `"def"` and `"${MISSING}"` stays as it is. -/
theorem parseEnvValue_single_token_witness :
    (∀ ch ∈ ("MISSING" : GoString).data, isNameChar ch = true) ∧
    (∀ ch ∈ ("def" : GoString).data, isNameChar ch = true) ∧
    strings.TrimSpace "MISSING" = "MISSING" ∧
    testStore.parseEnvValue fooRuntime "$\x7bFOO\x7d" = "bar" ∧
    testStore.parseEnvValue fooRuntime ("$\x7b" ++ "MISSING" ++ "\x7d") =
      "$\x7b" ++ "MISSING" ++ "\x7d" ∧
    testStore.parseEnvValue fooRuntime ("$\x7b" ++ "MISSING" ++ "|" ++ "def" ++ "\x7d") =
      "def" :=
  ⟨by decide, by decide, by decide, by decide, by decide,
    (parseEnvValue_single_token testStore fooRuntime "MISSING" "def" (by decide) (by decide)
      (by decide)).2.1⟩

/-- C19 (fails on the code): the name is trimmed only in the branch for tokens
with a default; without one the code takes `name = ss[0]` as it stands. With
`FOO=bar`, `"${ FOO | x }"` interpolates to `"bar"`, but for `"${ FOO }"`
the variable looked up is `" FOO "`, which is not set, and the token is left
unexpanded. -/
theorem parseEnvValue_untrimmed_name_without_default :
    fooRuntime.Getenv "FOO" = "bar" ∧
    testStore.parseEnvValue fooRuntime "$\x7b FOO | x \x7d" = "bar" ∧
    (envPair fooRuntime "$\x7b FOO \x7d".data).2 = "$\x7b FOO \x7d".data ∧
    testStore.parseEnvValue fooRuntime "$\x7b FOO \x7d" = "$\x7b FOO \x7d" ∧
    testStore.parseEnvValue fooRuntime "$\x7bFOO\x7d" = "bar" :=
  ⟨by decide, by decide, by decide, by decide, by decide⟩

/-! ### Structure binding -/

/-- C20 (fails on the code): inside `if ok`, `blob, err := JSONEncoder(data)`
declares a second `err`, and `err = JSONDecoder(blob, v)` assigns to it; the
bare `return` after the block yields the named result, which is still nil.
With an encoder that succeeds and a decoder that fails, `Structure` returns a
nil error, for the empty key and for a key that resolves; an encoder failure
is returned as claimed. -/
theorem structure_drops_decoder_error :
    (failingDecoder.JSONDecoder "blob" "dest").2 = some (.errorf "decode failed") ∧
    testStore.Structure failingDecoder "" "dest" = .ok ((none, "dest"), testStore) ∧
    testStore.GetValue "name" [] = .ok ((.str "app", true), testStore) ∧
    testStore.Structure failingDecoder "name" "dest" = .ok ((none, "dest"), testStore) ∧
    testStore.Structure failingEncoder "" "dest" =
      .ok ((some (.errorf "encode failed"), "dest"), testStore) :=
  ⟨rfl, rfl, rfl, rfl, rfl⟩

theorem StructureTrace_result {Blob Dest : Type} (c : Config) (codec : Codec Blob Dest)
    (key : GoString) (v : Dest) :
    (c.StructureTrace codec key v).map Prod.fst = c.Structure codec key v := by
  unfold Config.StructureTrace Config.Structure
  cases (if key == "" then (Except.ok ((Value.mapSI c.data, true), c) : Except Panic _)
      else c.GetValue key []) with
  | error p => rfl
  | ok r =>
    obtain ⟨⟨data, ok⟩, c1⟩ := r
    cases ok with
    | false => rfl
    | true =>
      simp only [if_true]
      cases codec.JSONEncoder data <;> rfl

/-- C21: for every store, codec and destination: if the key is not empty and
`GetValue` reports it as not found, `Structure(key, dest)` returns a nil
error, makes no call to the encoder or the decoder and hands the destination
back unchanged. For the key `""` the encoder is applied to the entire root
mapping, and for a key that resolves it is applied to exactly the value
`GetValue(key)` returns: the result of `Structure` is the encoder's error
with the destination untouched when the encoder fails on that value, and has
the destination the decoder makes from the encoder's blob when it succeeds;
the encoder is the first call and is called once. -/
theorem structure_binding_calls {Blob Dest : Type} (c : Config) (codec : Codec Blob Dest)
    (key : GoString) (v : Dest) :
    (∀ (x : Value) (c1 : Config), key ≠ "" → c.GetValue key [] = .ok ((x, false), c1) →
      c.StructureTrace codec key v = .ok (((none, v), c1), []) ∧
      c.Structure codec key v = .ok ((none, v), c1)) ∧
    (∃ r calls, c.Structure codec "" v = .ok (r, c) ∧
      c.StructureTrace codec "" v =
        .ok ((r, c), CodecCall.encode (Value.mapSI c.data) :: calls) ∧
      (∀ d, CodecCall.encode d ∉ calls) ∧
      (∀ err, codec.JSONEncoder (Value.mapSI c.data) = .error err → r = (some err, v)) ∧
      (∀ blob, codec.JSONEncoder (Value.mapSI c.data) = .ok blob →
        r.2 = (codec.JSONDecoder blob v).1 ∧ calls = [CodecCall.decode blob])) ∧
    (∀ (x : Value) (c1 : Config), c.GetValue key [] = .ok ((x, true), c1) →
      ∃ r calls, c.Structure codec key v = .ok (r, c1) ∧
        c.StructureTrace codec key v = .ok ((r, c1), CodecCall.encode x :: calls) ∧
        (∀ d, CodecCall.encode d ∉ calls) ∧
        (∀ err, codec.JSONEncoder x = .error err → r = (some err, v)) ∧
        (∀ blob, codec.JSONEncoder x = .ok blob →
          r.2 = (codec.JSONDecoder blob v).1 ∧ calls = [CodecCall.decode blob])) := by
  refine ⟨?_, ?_, ?_⟩
  · intro x c1 hne hget
    have hk : (key == "") = false := by simpa using hne
    constructor
    · simp [Config.StructureTrace, hk, hget]
    · simp [Config.Structure, hk, hget]
  · cases he : codec.JSONEncoder (Value.mapSI c.data) with
    | error err =>
      exact ⟨(some err, v), [], by simp [Config.Structure, he],
        by simp [Config.StructureTrace, he], by simp, by simp, by simp⟩
    | ok blob =>
      exact ⟨(none, (codec.JSONDecoder blob v).1), [.decode blob],
        by simp [Config.Structure, he], by simp [Config.StructureTrace, he], by simp,
        by simp, by
          intro b hb
          simp only [Except.ok.injEq] at hb
          subst hb
          exact ⟨rfl, rfl⟩⟩
  · intro x c1 hget
    have hne : key ≠ "" := by
      rintro rfl
      have h0 : c.GetValue "" [] =
          .ok ((Value.nil, false), c.addError (some .errInvalidKey)) := rfl
      rw [h0] at hget
      simp at hget
    have hk : (key == "") = false := by simpa using hne
    cases he : codec.JSONEncoder x with
    | error err =>
      exact ⟨(some err, v), [], by simp [Config.Structure, hk, hget, he],
        by simp [Config.StructureTrace, hk, hget, he], by simp, by simp, by simp⟩
    | ok blob =>
      exact ⟨(none, (codec.JSONDecoder blob v).1), [.decode blob],
        by simp [Config.Structure, hk, hget, he],
        by simp [Config.StructureTrace, hk, hget, he], by simp, by simp, by
          intro b hb
          simp only [Except.ok.injEq] at hb
          subst hb
          exact ⟨rfl, rfl⟩⟩

/-- C21, witness: on the test store with a codec that shows what it was given,
`Structure("notExist", dest)` makes no call and leaves the destination empty;
`Structure("", dest)` encodes the whole root, and `Structure("name", dest)`
encodes the string `"app"` that `GetValue("name")` returns, so the
destination ends up holding exactly that value. -/
theorem structure_binding_calls_witness :
    ("notExist" : GoString) ≠ "" ∧
    testStore.GetValue "notExist" [] = .ok ((.nil, false), testStore) ∧
    testStore.StructureTrace recordingCodec "notExist" [] =
      .ok (((none, []), testStore), []) ∧
    testStore.Structure recordingCodec "notExist" [] = .ok ((none, []), testStore) ∧
    testStore.Structure recordingCodec "" [] =
      .ok ((none, [Value.mapSI testStore.data]), testStore) ∧
    testStore.GetValue "name" [] = .ok ((.str "app", true), testStore) ∧
    testStore.Structure recordingCodec "name" [] =
      .ok ((none, [.str "app"]), testStore) ∧
    testStore.Structure failingEncoder "name" "dest" =
      .ok ((some (.errorf "encode failed"), "dest"), testStore) ∧
    testStore.StructureTrace recordingCodec "name" [] =
      .ok (((none, [.str "app"]), testStore),
        [.encode (.str "app"), .decode (.str "app")]) ∧
    (∃ r calls, testStore.Structure recordingCodec "name" [] = .ok (r, testStore) ∧
      testStore.StructureTrace recordingCodec "name" [] =
        .ok ((r, testStore), CodecCall.encode (.str "app") :: calls) ∧
      (∀ d, CodecCall.encode d ∉ calls) ∧
      (∀ err, recordingCodec.JSONEncoder (.str "app") = .error err → r = (some err, [])) ∧
      (∀ blob, recordingCodec.JSONEncoder (.str "app") = .ok blob →
        r.2 = (recordingCodec.JSONDecoder blob []).1 ∧
        calls = [CodecCall.decode blob])) :=
  ⟨by decide, rfl,
    ((structure_binding_calls testStore recordingCodec "notExist" []).1 .nil testStore
      (by decide) rfl).1,
    ((structure_binding_calls testStore recordingCodec "notExist" []).1 .nil testStore
      (by decide) rfl).2,
    rfl, rfl, rfl, rfl, rfl,
    (structure_binding_calls testStore recordingCodec "name" []).2.2 (.str "app")
      testStore rfl⟩

/-! ### Existence against resolution -/

/-- C22 (fails on the code): on the root `{"a": [1, 2]}`, `Exists("a.2")` is
`true`, since its guard `len(typeData) < i` lets the index 2 through, while
`GetValue("a.2")` panics at `typeData[2]`; and `Exists("a.0.1")` is `true`,
since the slice cases of `Exists` never replace `item` by the element and read
`"1"` as a second index of the same sequence, while `GetValue("a.0.1")`
reaches the scalar `1`, cannot descend and reports not found. The same for a
`[]int`. -/
theorem exists_true_where_getValue_fails :
    pairSeqStore.Exists "a.2" [] = true ∧
    pairSeqStore.GetValue "a.2" [] = .error (.indexOutOfRange 2 2) ∧
    pairSeqStore.Exists "a.0.1" [] = true ∧
    pairSeqStore.GetValue "a.0.1" [] = .ok ((.nil, false),
      pairSeqStore.addErrorf "cannot get value of the key 'a.0.1'") ∧
    pairIntSeqStore.Exists "a.2" [true] = true ∧
    pairIntSeqStore.GetValue "a.2" [true] = .error (.indexOutOfRange 2 2) ∧
    pairIntSeqStore.Exists "a.0.1" [true] = true ∧
    Config.foundFlag (pairIntSeqStore.GetValue "a.0.1" [true]) = some false :=
  ⟨rfl, rfl, rfl, rfl, rfl, rfl, rfl, rfl⟩
